import Mathlib

/- Verification development for the codeql-mcp-server fact-graph indexer and
   query engine.  The relational store (scripts/setup-database.sh schema), the
   store helpers (src/postgres.ts) and the ingestion / query handlers
   (src/index.ts) are shallowly embedded as Lean definitions over lists of
   rows; machine SQL semantics (joins, filters, updates, group-by) are spelled
   out as list computations. -/

namespace CodeQLGraph

/- Data model: the five tables of scripts/setup-database.sh (schema.sql part).
   SERIAL ids are modelled as plain naturals; nullable columns as Option. -/

/-- Row of the functions table: id SERIAL, codeql_id TEXT UNIQUE NOT NULL,
database_name, name, file, line, num_params, signature. -/
structure FunctionRow where
  id : Nat
  codeql_id : String
  database_name : String
  name : String
  file : String
  line : Nat
  num_params : Nat
  signature : Option String
deriving DecidableEq

/-- Row of the classes table: id, codeql_id TEXT UNIQUE NOT NULL,
database_name, name, file, line, parent_codeql_id, parent_id. -/
structure ClassRow where
  id : Nat
  codeql_id : String
  database_name : String
  name : String
  file : String
  line : Nat
  parent_codeql_id : Option String
  parent_id : Option Nat
deriving DecidableEq

/-- Row of the function_calls table: id, database_name, caller_codeql_id,
callee_codeql_id, caller_id, callee_id, callee_name, file, line. -/
structure CallRow where
  id : Nat
  database_name : String
  caller_codeql_id : String
  callee_codeql_id : String
  caller_id : Option Nat
  callee_id : Option Nat
  callee_name : Option String
  file : String
  line : Nat
deriving DecidableEq

/-- Row of the class_methods table. -/
structure MethodRow where
  id : Nat
  database_name : String
  class_codeql_id : String
  method_codeql_id : String
  method_name : Option String
  class_id : Option Nat
  method_id : Option Nat
deriving DecidableEq

/-- Row of the variables table. -/
structure VariableRow where
  id : Nat
  database_name : String
  name : String
  file : String
  line : Nat
  scope : Option String
deriving DecidableEq

/-- The whole relational store; the vars field models the variables table
(the word variables itself is a Lean keyword). -/
@[ext]
structure DB where
  functions : List FunctionRow
  classes : List ClassRow
  function_calls : List CallRow
  class_methods : List MethodRow
  vars : List VariableRow
deriving DecidableEq

/-- The empty store. -/
def emptyDB : DB := ⟨[], [], [], [], []⟩

/- clearDatabase (src/postgres.ts, lines 159-165): five DELETE statements,
   each scoped by database_name. -/

/-- The ids of the corpus's functions rows (the rows a corpus-scoped DELETE
FROM functions removes). -/
def corpusFunctionIds (db : DB) (databaseName : String) : List Nat :=
  (db.functions.filter (fun r => r.database_name == databaseName)).map FunctionRow.id

/-- The ids of the corpus's classes rows (the rows a corpus-scoped DELETE
FROM classes removes). -/
def corpusClassIds (db : DB) (databaseName : String) : List Nat :=
  (db.classes.filter (fun r => r.database_name == databaseName)).map ClassRow.id

/-- clearDatabase: the five corpus-scoped DELETE statements in source order
(class_methods, function_calls, variables, classes, functions), together
with the schema's referential actions: deleting classes rows cascade-deletes
class_methods rows referencing them through class_id and nulls parent_id
columns referencing them (ON DELETE SET NULL); deleting functions rows
cascade-deletes function_calls rows referencing them through caller_id or
callee_id and class_methods rows referencing them through method_id
(ON DELETE CASCADE).  The referential actions are not corpus-scoped, so they
can reach rows of other corpora that hold resolved references into the
cleared corpus. -/
def clearDatabase (db : DB) (databaseName : String) : DB :=
  let cm1 := db.class_methods.filter (fun r => r.database_name ≠ databaseName)
  let fc1 := db.function_calls.filter (fun r => r.database_name ≠ databaseName)
  let vs1 := db.vars.filter (fun r => r.database_name ≠ databaseName)
  let deletedClassIds := corpusClassIds db databaseName
  let cls1 := db.classes.filter (fun r => r.database_name ≠ databaseName)
  let cls2 := cls1.map (fun c =>
    match c.parent_id with
    | some i => if deletedClassIds.contains i then { c with parent_id := none } else c
    | none => c)
  let cm2 := cm1.filter (fun r =>
    match r.class_id with
    | some i => !(deletedClassIds.contains i)
    | none => true)
  let deletedFunIds := corpusFunctionIds db databaseName
  let funs1 := db.functions.filter (fun r => r.database_name ≠ databaseName)
  let fc2 := fc1.filter (fun r =>
    (match r.caller_id with
      | some i => !(deletedFunIds.contains i)
      | none => true) &&
    (match r.callee_id with
      | some i => !(deletedFunIds.contains i)
      | none => true))
  let cm3 := cm2.filter (fun r =>
    match r.method_id with
    | some i => !(deletedFunIds.contains i)
    | none => true)
  { functions := funs1, classes := cls2, function_calls := fc2,
    class_methods := cm3, vars := vs1 }

/- INSERT with the schema's UNIQUE constraint on codeql_id.  The schema
   (setup-database.sh) declares codeql_id TEXT UNIQUE NOT NULL on the
   functions and classes tables: uniqueness is global, not scoped by
   database_name, so an INSERT whose codeql_id already exists in any corpus
   raises a unique-constraint violation. -/

/-- Insert one functions row, enforcing the schema's global UNIQUE
constraint on codeql_id. -/
def insertFunction (db : DB) (r : FunctionRow) : Except String DB :=
  if db.functions.any (fun f => f.codeql_id == r.codeql_id) then
    Except.error "duplicate key value violates unique constraint functions_codeql_id_key"
  else
    Except.ok { db with functions := db.functions ++ [r] }

/-- Insert a list of functions rows left to right, stopping at the first
unique-constraint violation. -/
def insertFunctions (db : DB) : List FunctionRow → Except String DB
  | [] => Except.ok db
  | r :: rs =>
    match insertFunction db r with
    | Except.error e => Except.error e
    | Except.ok db1 => insertFunctions db1 rs

/-- Insert one classes row, enforcing the schema's global UNIQUE constraint
on codeql_id. -/
def insertClass (db : DB) (r : ClassRow) : Except String DB :=
  if db.classes.any (fun c => c.codeql_id == r.codeql_id) then
    Except.error "duplicate key value violates unique constraint classes_codeql_id_key"
  else
    Except.ok { db with classes := db.classes ++ [r] }

/-- Insert a list of classes rows left to right, stopping at the first
unique-constraint violation. -/
def insertClasses (db : DB) : List ClassRow → Except String DB
  | [] => Except.ok db
  | r :: rs =>
    match insertClass db r with
    | Except.error e => Except.error e
    | Except.ok db1 => insertClasses db1 rs

/- updateForeignKeys (src/postgres.ts, lines 170-218): five sequential UPDATE
   passes, each setting a still-null foreign key from a natural-key join.
   Each UPDATE joins on codeql_id with no database_name restriction on the
   joined table (faithful to the SQL); ties are resolved by taking the first
   matching row. -/

/-- The shape shared by all five resolver passes: guard on the corpus tag
and a still-null target field, join the environment table by a natural-key
predicate, and set the target id from the first match.  Each pass below is
definitionally an instance of this shape, which the idempotence lemmas
exploit. -/
def genericPass {α β : Type} (tagf : α → String) (getf : α → Option Nat)
    (setf : α → Nat → α) (predf : α → β → Bool) (valf : β → Nat)
    (env : List β) (dn : String) (x : α) : α :=
  if tagf x == dn && getf x == none then
    match env.find? (predf x) with
    | some e => setf x (valf e)
    | none => x
  else x

/-- Pass 1: set function_calls.caller_id from caller_codeql_id when null. -/
def setCallerId (functions : List FunctionRow) (databaseName : String)
    (fc : CallRow) : CallRow :=
  if fc.database_name == databaseName && fc.caller_id == none then
    match functions.find? (fun f => f.codeql_id == fc.caller_codeql_id) with
    | some f => { fc with caller_id := some f.id }
    | none => fc
  else fc

/-- Pass 2: set function_calls.callee_id from callee_codeql_id when null. -/
def setCalleeId (functions : List FunctionRow) (databaseName : String)
    (fc : CallRow) : CallRow :=
  if fc.database_name == databaseName && fc.callee_id == none then
    match functions.find? (fun f => f.codeql_id == fc.callee_codeql_id) with
    | some f => { fc with callee_id := some f.id }
    | none => fc
  else fc

/-- Pass 3: set classes.parent_id from parent_codeql_id when null. -/
def setParentId (classes : List ClassRow) (databaseName : String)
    (c1 : ClassRow) : ClassRow :=
  if c1.database_name == databaseName && c1.parent_id == none then
    match classes.find? (fun c2 => some c2.codeql_id == c1.parent_codeql_id) with
    | some c2 => { c1 with parent_id := some c2.id }
    | none => c1
  else c1

/-- Pass 4: set class_methods.class_id from class_codeql_id when null. -/
def setClassId (classes : List ClassRow) (databaseName : String)
    (cm : MethodRow) : MethodRow :=
  if cm.database_name == databaseName && cm.class_id == none then
    match classes.find? (fun c => c.codeql_id == cm.class_codeql_id) with
    | some c => { cm with class_id := some c.id }
    | none => cm
  else cm

/-- Pass 5: set class_methods.method_id from method_codeql_id when null. -/
def setMethodId (functions : List FunctionRow) (databaseName : String)
    (cm : MethodRow) : MethodRow :=
  if cm.database_name == databaseName && cm.method_id == none then
    match functions.find? (fun f => f.codeql_id == cm.method_codeql_id) with
    | some f => { cm with method_id := some f.id }
    | none => cm
  else cm

/-- updateForeignKeys: the five passes in source order.  Pass 3 joins against
the pre-statement snapshot of classes (SQL UPDATE ... FROM semantics); passes
4 and 5 run after pass 3 committed, so they see the updated classes table. -/
def updateForeignKeys (db : DB) (databaseName : String) : DB :=
  let fcs1 := db.function_calls.map (setCallerId db.functions databaseName)
  let fcs2 := fcs1.map (setCalleeId db.functions databaseName)
  let cls := db.classes.map (setParentId db.classes databaseName)
  let cms1 := db.class_methods.map (setClassId cls databaseName)
  let cms2 := cms1.map (setMethodId db.functions databaseName)
  { db with function_calls := fcs2, classes := cls, class_methods := cms2 }

/- Ingestion pipeline (handleBuildGraphIndex, src/index.ts lines 1341-1446).
   String operations are implemented over character lists so that concrete
   instances evaluate by kernel reduction. -/

/-- Whitespace trim, as the source's String.trim on both ends. -/
def trimStr (s : String) : String :=
  String.mk (((s.toList.dropWhile Char.isWhitespace).reverse.dropWhile
    Char.isWhitespace).reverse)

/-- Character-level worker of parseCSVLine (src/index.ts lines 1351-1376):
walks the line, toggling quote state, doubling quotes inside quotes, and
splitting fields on unquoted commas.  The fuel argument (initially the line
length, never less than the characters left) keeps the recursion structural,
so concrete lines evaluate by kernel reduction. -/
def parseCSVGo : Nat → List Char → List Char → Bool → List String → List String
  | _, [], current, _, result => result ++ [String.mk current]
  | 0, _ :: _, current, _, result => result ++ [String.mk current]
  | fuel + 1, c :: rest, current, inQuotes, result =>
    if c == '"' && !inQuotes then
      parseCSVGo fuel rest current true result
    else if c == '"' && inQuotes then
      match rest with
      | '"' :: rest2 => parseCSVGo fuel rest2 (current ++ ['"']) true result
      | _ => parseCSVGo fuel rest current false result
    else if c == ',' && !inQuotes then
      parseCSVGo fuel rest [] inQuotes (result ++ [String.mk current])
    else
      parseCSVGo fuel rest (current ++ [c]) inQuotes result

/-- parseCSVLine: quoted-field aware CSV splitting of one line. -/
def parseCSVLine (line : String) : List String :=
  parseCSVGo line.toList.length line.toList [] false []

/-- Field post-processing (src/index.ts lines 1383-1387): trim, and map the
empty string to null. -/
def toField (v : String) : Option String :=
  let t := trimStr v
  if t == "" then none else some t

/-- The leading-identifier extraction shared by both callee-reference regex
forms: the nonempty run of characters before the first at sign; none when the
string starts with an at sign or contains none. -/
def extractBefore (s : String) : Option String :=
  let cs := s.toList
  let lead := cs.takeWhile (fun c => c != '@')
  if 0 < lead.length && lead.length < cs.length then some (String.mk lead)
  else none

/-- The unresolved-reference tag. -/
def unresolvedTag : String := "unresolved:"

/-- deriveCalleeName (the processRow closure of the calls extraction,
src/index.ts lines 1275-1288): match the callee reference against
unresolved:(name)@... or (name)@... and extract the name. -/
def deriveCalleeName (calleeId : Option String) : Option String :=
  match calleeId with
  | none => none
  | some cid =>
    if unresolvedTag.toList.isPrefixOf cid.toList then
      extractBefore (String.mk (cid.toList.drop unresolvedTag.length))
    else
      extractBefore cid

/-- State of one ingestion run: natural keys seen so far, accumulated value
rows, and the skipped-duplicate counter. -/
structure IngestState where
  seen : List String
  values : List (List (Option String))
  skippedDuplicates : Nat
deriving DecidableEq

/-- One iteration of the ingestion loop (src/index.ts lines 1381-1405):
skip blank lines, parse, null-convert, drop rows whose first parsed column
was already seen (counting them), apply the calls row processor, and tag the
row with the database name. -/
def ingestStep (databaseName : String) (hasProcessRow : Bool)
    (st : IngestState) (line : String) : IngestState :=
  if trimStr line == "" then st
  else
    let parts := (parseCSVLine line).map toField
    let uniqueId := parts.getD 0 none
    match uniqueId with
    | some k =>
      if st.seen.contains k then
        { st with skippedDuplicates := st.skippedDuplicates + 1 }
      else
        let rowData := if hasProcessRow then parts ++ [deriveCalleeName (parts.getD 1 none)] else parts
        { seen := k :: st.seen
          values := st.values ++ [some databaseName :: rowData]
          skippedDuplicates := st.skippedDuplicates }
    | none =>
      let rowData := if hasProcessRow then parts ++ [deriveCalleeName (parts.getD 1 none)] else parts
      { st with values := st.values ++ [some databaseName :: rowData] }

/-- Run the ingestion loop over the decoded data lines. -/
def ingestRun (databaseName : String) (hasProcessRow : Bool)
    (dataLines : List String) : IngestState :=
  dataLines.foldl (ingestStep databaseName hasProcessRow) ⟨[], [], 0⟩

/- Batch insertion (src/index.ts lines 1411-1438): batch size is
floor (8000 / number of columns); the INSERT builds one placeholder per
column of each batched row, so it fails with a parameter-count mismatch
whenever the flattened values of a batch do not number rows times columns. -/

/-- The conservative parameter ceiling of the source. -/
def maxParams : Nat := 8000

/-- Chunk a list into consecutive pieces of the given size (fuelled by the
list length, as the source's index-stepping loop). -/
def chunkGo (n : Nat) : Nat → List α → List (List α)
  | 0, _ => []
  | _, [] => []
  | fuel + 1, xs => xs.take n :: chunkGo n fuel (xs.drop n)

/-- values.slice batching of the source loop. -/
def chunkList (n : Nat) (xs : List α) : List (List α) :=
  chunkGo n xs.length xs

/-- The actual column list of one extraction: database_name first, then the
extraction's columns, then callee_name when the calls row processor is
active (src/index.ts line 1347). -/
def actualColumns (columns : List String) (hasProcessRow : Bool) : List String :=
  if hasProcessRow then "database_name" :: columns ++ ["callee_name"]
  else "database_name" :: columns

/-- Execute the batched INSERT statements: each batch succeeds exactly when
its flattened values match the placeholder count, i.e. every row has as many
fields as the column list; otherwise the store rejects the statement. -/
def runBatchInsert (cols : List String) (values : List (List (Option String))) :
    Except String Nat :=
  let batchSize := maxParams / cols.length
  let batches := chunkList batchSize values
  if batches.all (fun b => (b.map List.length).sum == b.length * cols.length) then
    Except.ok values.length
  else
    Except.error "bind message parameter count mismatch"

/-- Ingest the data lines of one fact type and insert them in batches,
returning the stored row count. -/
def ingestInsert (databaseName : String) (columns : List String)
    (hasProcessRow : Bool) (dataLines : List String) : Except String Nat :=
  let st := ingestRun databaseName hasProcessRow dataLines
  runBatchInsert (actualColumns columns hasProcessRow) st.values

/- importCSVFallback (src/postgres.ts lines 106-154): the row-at-a-time
   importer parses by plain comma split, strips one layer of surrounding
   quotes, maps empty and the literal null to null, and inserts a row only
   when its field count equals the column count. -/

/-- Split a character list on commas (plain split, not quote aware). -/
def splitComma : List Char → List (List Char)
  | [] => [[]]
  | c :: rest =>
    if c == ',' then [] :: splitComma rest
    else
      match splitComma rest with
      | [] => [[c]]
      | f :: fs => (c :: f) :: fs

/-- The replace of the anchored quote-stripping pattern: remove one leading
and one trailing quote when both are present. -/
def stripQuotes (cs : List Char) : List Char :=
  if 2 ≤ cs.length && cs.getD 0 ' ' == '"' && cs.getD (cs.length - 1) ' ' == '"' then
    (cs.drop 1).dropLast
  else cs

/-- The literal null word. -/
def nullWord : String := "null"

/-- One fallback-import field: trim, strip quotes, null-convert. -/
def fallbackField (cs : List Char) : Option String :=
  let v := stripQuotes (trimStr (String.mk cs)).toList
  if String.mk v == "" || String.mk v == nullWord then none else some (String.mk v)

/-- importCSVFallback row handling: count only non-blank lines whose parsed
field count equals the column count; other lines are dropped silently. -/
def importCSVFallbackCount (columns : List String) (dataLines : List String) : Nat :=
  dataLines.foldl
    (fun n line =>
      if trimStr line == "" then n
      else
        let values := (splitComma line.toList).map fallbackField
        if values.length == columns.length then n + 1 else n)
    0

/- Extraction driver (handleBuildGraphIndex, src/index.ts lines 1273-1310):
   the four fact types in source order, functions required, the rest
   optional.  A missing required query file aborts the build; a missing
   optional one records a zero statistic and continues. -/

/-- One entry of the extractions table of the source. -/
structure ExtractionSpec where
  query : String
  table : String
  columns : List String
  required : Bool
  hasProcessRow : Bool
deriving DecidableEq

/-- The extractions list (src/index.ts lines 1273-1291). -/
def extractions : List ExtractionSpec :=
  [ ⟨"extract-functions.ql", "functions",
      ["codeql_id", "name", "file", "line", "num_params", "signature"], true, false⟩,
    ⟨"extract-calls.ql", "function_calls",
      ["caller_codeql_id", "callee_codeql_id", "file", "line"], false, true⟩,
    ⟨"extract-classes.ql", "classes",
      ["codeql_id", "name", "file", "line", "parent_codeql_id"], false, false⟩,
    ⟨"extract-methods.ql", "class_methods",
      ["class_codeql_id", "method_codeql_id", "method_name"], false, false⟩ ]

/-- The per-fact-type loop body: availability of the extraction capability is
the existence check on the query file; rowsFor abstracts the external tool's
decoded output.  Errors (missing required capability, batch insert failure)
propagate and abort the whole build. -/
def runExtractionGo (databaseName : String) (available : String → Bool)
    (rowsFor : String → List String) :
    List ExtractionSpec → Except String (List (String × Nat))
  | [] => Except.ok []
  | spec :: rest =>
    if !(available spec.query) then
      if spec.required then
        Except.error ("Required query file not found: " ++ spec.query)
      else
        match runExtractionGo databaseName available rowsFor rest with
        | Except.error e => Except.error e
        | Except.ok stats => Except.ok ((spec.table, 0) :: stats)
    else
      match ingestInsert databaseName spec.columns spec.hasProcessRow (rowsFor spec.query) with
      | Except.error e => Except.error e
      | Except.ok n =>
        match runExtractionGo databaseName available rowsFor rest with
        | Except.error e => Except.error e
        | Except.ok stats => Except.ok ((spec.table, n) :: stats)

/-- Run the whole extraction loop over the four fact types. -/
def runExtractionLoop (databaseName : String) (available : String → Bool)
    (rowsFor : String → List String) : Except String (List (String × Nat)) :=
  runExtractionGo databaseName available rowsFor extractions

/- The clear-then-reinsert corpus rebuild of handleBuildGraphIndex
   (src/index.ts lines 1241-1451): clear the corpus, insert the freshly
   extracted rows (all tagged with the corpus name), then run the reference
   resolver. -/

/-- The rows produced by one corpus extraction, already materialized. -/
structure NewRows where
  functions : List FunctionRow
  classes : List ClassRow
  function_calls : List CallRow
  class_methods : List MethodRow
deriving DecidableEq

/-- Clear one corpus and reinsert its rows in the source's fact type order
(functions, calls, classes, methods); unique-key violations abort. -/
def rebuildCorpus (db : DB) (databaseName : String) (rows : NewRows) :
    Except String DB :=
  let db0 := clearDatabase db databaseName
  match insertFunctions db0 rows.functions with
  | Except.error e => Except.error e
  | Except.ok db1 =>
    let db2 := { db1 with function_calls := db1.function_calls ++ rows.function_calls }
    match insertClasses db2 rows.classes with
    | Except.error e => Except.error e
    | Except.ok db3 =>
      Except.ok { db3 with class_methods := db3.class_methods ++ rows.class_methods }

/-- The full build: clear-then-reinsert followed by the reference resolver. -/
def buildGraphIndex (db : DB) (databaseName : String) (rows : NewRows) :
    Except String DB :=
  match rebuildCorpus db databaseName rows with
  | Except.error e => Except.error e
  | Except.ok db1 => Except.ok (updateForeignKeys db1 databaseName)

/- Caller lookup (handleFindCallers, src/index.ts lines 1521-1569):
   function_calls joined to the caller function, left-joined to the resolved
   callee, filtered by resolved-callee-name or fallback-name equality and the
   corpus tag, ordered by caller file then line, capped at 200 rows. -/

/-- Lexicographic less-or-equal on character lists: the store's ORDER BY on
text columns, modelled as codepoint order. -/
def lexLe : List Char → List Char → Bool
  | [], _ => true
  | _ :: _, [] => false
  | a :: as, b :: bs => if a < b then true else if b < a then false else lexLe as bs

/-- Lexicographic strictly-less on character lists. -/
def lexLt : List Char → List Char → Bool
  | [], [] => false
  | [], _ :: _ => true
  | _ :: _, [] => false
  | a :: as, b :: bs => if a < b then true else if b < a then false else lexLt as bs

/-- One row of the caller lookup result. -/
structure CallerResult where
  caller_name : String
  caller_file : String
  call_line : Nat
  call_type : String
deriving DecidableEq

/-- The resolved tag. -/
def resolvedTag : String := "resolved"

/-- The unresolved tag. -/
def unresolvedResultTag : String := "unresolved"

/-- The caller lookup before ordering and the 200-row cap: for each call
edge, each matching caller row, and each left-join slot of the resolved
callee, keep the row when the callee name or the fallback callee name equals
the searched name and the edge carries the corpus tag. -/
def findCallersAll (db : DB) (functionName databaseName : String) :
    List CallerResult :=
  db.function_calls.flatMap (fun fc =>
    (db.functions.filter (fun c => fc.caller_id == some c.id)).flatMap (fun caller =>
      let callees := db.functions.filter (fun f => fc.callee_id == some f.id)
      let calleeSlots : List (Option FunctionRow) :=
        if callees.isEmpty then [none] else callees.map some
      calleeSlots.filterMap (fun calleeOpt =>
        let calleeNameMatches :=
          match calleeOpt with
          | some callee => callee.name == functionName
          | none => false
        if (calleeNameMatches || fc.callee_name == some functionName)
            && fc.database_name == databaseName then
          some ⟨caller.name, caller.file, fc.line,
            if fc.callee_id.isSome then resolvedTag else unresolvedResultTag⟩
        else none)))

/-- The ORDER BY caller.file, fc.line relation. -/
def callerOrder : CallerResult → CallerResult → Prop :=
  fun a b =>
    (lexLt a.caller_file.toList b.caller_file.toList
      || (a.caller_file == b.caller_file && a.call_line ≤ b.call_line)) = true

instance : DecidableRel callerOrder := fun a b => by
  unfold callerOrder; infer_instance

/-- The caller lookup: ordered and capped at 200. -/
def findCallers (db : DB) (functionName databaseName : String) :
    List CallerResult :=
  (List.insertionSort callerOrder (findCallersAll db functionName databaseName)).take 200

/- Hot-spot statistics (handleQueryGraphStats, src/index.ts lines 1721-1735):
   functions of the corpus joined to call edges on the RESOLVED callee id,
   grouped per function, kept when called more than once, ordered by call
   count descending, capped at 10. -/

/-- One hot-spot row. -/
structure HotSpot where
  name : String
  file : String
  call_count : Nat
  unique_callers : Nat
deriving DecidableEq

/-- The hot-spot aggregation before ordering and the cap: per corpus
function, the edges joined on callee_id, kept when there are more than one;
unique_callers counts distinct non-null caller ids. -/
def hotSpotsAll (db : DB) (databaseName : String) : List HotSpot :=
  (db.functions.filter (fun f => f.database_name == databaseName)).filterMap
    (fun f =>
      let edges := db.function_calls.filter (fun fc => fc.callee_id == some f.id)
      if 1 < edges.length then
        some ⟨f.name, f.file, edges.length,
          (edges.filterMap CallRow.caller_id).dedup.length⟩
      else none)

/-- The ORDER BY call_count DESC relation. -/
def hotOrder : HotSpot → HotSpot → Prop :=
  fun a b => b.call_count ≤ a.call_count

instance : DecidableRel hotOrder := fun a b => by
  unfold hotOrder; infer_instance

/-- The hot-spot query: ordered and capped at 10. -/
def hotSpots (db : DB) (databaseName : String) : List HotSpot :=
  (List.insertionSort hotOrder (hotSpotsAll db databaseName)).take 10

/- Fuzzy function search (handleFindFunctionFast, src/index.ts lines
   1482-1491): name % pattern with pg_trgm trigram similarity, ordered by
   similarity descending then name ascending, capped at limit.  The pg_trgm
   semantics: the string is downcased, split into maximal alphanumeric words,
   each word padded with two leading and one trailing space, all character
   triples collected as a set; similarity is shared count over union count. -/

/-- Split a downcased character list into maximal alphanumeric words. -/
def wordsGo : List Char → List Char → List (List Char)
  | [], current => if current.isEmpty then [] else [current]
  | c :: rest, current =>
    if c.isAlphanum then wordsGo rest (current ++ [c])
    else if current.isEmpty then wordsGo rest []
    else current :: wordsGo rest []

/-- The alphanumeric words of a string, downcased. -/
def wordsOf (s : String) : List (List Char) :=
  wordsGo (s.toList.map Char.toLower) []

/-- All consecutive character triples. -/
def windows3 : List Char → List (List Char)
  | a :: b :: c :: rest => [a, b, c] :: windows3 (b :: c :: rest)
  | _ => []

/-- The trigrams of one word: pad with two leading and one trailing space,
collect the triples. -/
def trigramsOfWord (w : List Char) : List (List Char) :=
  windows3 (' ' :: ' ' :: (w ++ [' ']))

/-- The trigram set of a string. -/
def trigramsOf (s : String) : List (List Char) :=
  ((wordsOf s).flatMap trigramsOfWord).dedup

/-- The shared-trigram count of two strings. -/
def simInter (a b : String) : Nat :=
  ((trigramsOf a).filter (fun t => (trigramsOf b).contains t)).length

/-- The trigram-union count of two strings. -/
def simUnion (a b : String) : Nat :=
  (trigramsOf a).length + (trigramsOf b).length - simInter a b

/-- The executable similarity fraction (numerator, denominator): shared
trigram count over union count; the denominator is normalized to 1 when the
union is empty, so it is always positive. -/
def simFrac (a b : String) : Nat × Nat :=
  if simUnion a b = 0 then (0, 1) else (simInter a b, simUnion a b)

/-- pg_trgm similarity as a rational number. -/
def similarity (a b : String) : ℚ :=
  ((simFrac a b).1 : ℚ) / ((simFrac a b).2 : ℚ)

/-- The default pg_trgm similarity threshold of the % operator. -/
def similarityThreshold : ℚ := 3 / 10

/-- The % operator: similarity at least the threshold, computed by cross
multiplication. -/
def simMatchB (a b : String) : Bool :=
  3 * (simFrac a b).2 ≤ 10 * (simFrac a b).1

/-- The rows matched by name % pattern within the corpus. -/
def findFunctionMatches (db : DB) (databaseName pattern0 : String) :
    List FunctionRow :=
  db.functions.filter (fun f =>
    f.database_name == databaseName && simMatchB f.name pattern0)

/-- Executable form of the ORDER BY similarity(name, pattern) DESC, name
comparison: compares the similarity fractions by cross multiplication, ties
broken by name. -/
def funcOrderB (pattern0 : String) (a b : FunctionRow) : Bool :=
  let sa := simFrac a.name pattern0
  let sb := simFrac b.name pattern0
  (sb.1 * sa.2 < sa.1 * sb.2)
    || (sa.1 * sb.2 == sb.1 * sa.2 && lexLe a.name.toList b.name.toList)

/-- The ORDER BY similarity(name, pattern) DESC, name relation. -/
def funcOrder (pattern0 : String) : FunctionRow → FunctionRow → Prop :=
  fun a b => funcOrderB pattern0 a b = true

instance (pattern0 : String) : DecidableRel (funcOrder pattern0) := fun a b => by
  unfold funcOrder; infer_instance

/-- One row of the fuzzy search result. -/
structure FunctionHit where
  name : String
  file : String
  line : Nat
  num_params : Nat
  signature : Option String
deriving DecidableEq

/-- Projection of the selected columns. -/
def toHit (f : FunctionRow) : FunctionHit :=
  ⟨f.name, f.file, f.line, f.num_params, f.signature⟩

/-- The fuzzy function search: similarity-matched rows of the corpus,
ordered by similarity descending then name, capped at limit. -/
def findFunctionFast (db : DB) (databaseName pattern0 : String) (limit : Nat) :
    List FunctionHit :=
  ((List.insertionSort (funcOrder pattern0)
    (findFunctionMatches db databaseName pattern0)).take limit).map toHit

/- Call-chain discovery (handleFindCallChain, src/index.ts lines 1571-1640):
   a recursive CTE whose base rows are the corpus functions named
   from_function at depth 0, and whose step joins call edges on the caller id
   and expands to any corpus function matched by resolved callee id or by
   fallback callee name, rejecting names already on the path and rows at
   depth max_depth; the answer is any row named to_function of minimal
   depth. -/

/-- One row of the recursive CTE. -/
structure ChainRow where
  id : Nat
  name : String
  file : String
  path : List String
  depth : Nat
deriving DecidableEq

/-- The base rows of the CTE. -/
def chainBase (db : DB) (fromName databaseName : String) : List ChainRow :=
  (db.functions.filter (fun f =>
    f.name == fromName && f.database_name == databaseName)).map
    (fun f => ⟨f.id, f.name, f.file, [f.name], 0⟩)

/-- One expansion step of the CTE from one row: join call edges on the
caller id (the edge itself is not corpus-filtered in the source), expand to
corpus functions matched by resolved id or by fallback name, reject names
already on the path, and stop at depth max_depth. -/
def chainExpand (db : DB) (databaseName : String) (maxDepth : Nat)
    (cc : ChainRow) : List ChainRow :=
  if cc.depth < maxDepth then
    db.function_calls.flatMap (fun fc =>
      if fc.caller_id == some cc.id then
        (db.functions.filter (fun callee =>
          (fc.callee_id == some callee.id || fc.callee_name == some callee.name)
            && callee.database_name == databaseName
            && !(cc.path.contains callee.name))).map
          (fun callee =>
            ⟨callee.id, callee.name, callee.file, cc.path ++ [callee.name], cc.depth + 1⟩)
      else [])
  else []

/-- The depth-n stratum of the CTE. -/
def chainLevels (db : DB) (fromName databaseName : String) (maxDepth : Nat) :
    Nat → List ChainRow
  | 0 => chainBase db fromName databaseName
  | n + 1 =>
    (chainLevels db fromName databaseName maxDepth n).flatMap
      (chainExpand db databaseName maxDepth)

/-- All rows of the CTE: rows at depth max_depth are never expanded, so the
fixpoint is the union of the strata 0 through max_depth. -/
def chainRows (db : DB) (fromName databaseName : String) (maxDepth : Nat) :
    List ChainRow :=
  (List.range (maxDepth + 1)).flatMap (chainLevels db fromName databaseName maxDepth)

/-- find_call_chain: among CTE rows named to_function, one of minimal depth
(ORDER BY depth LIMIT 1), as path and depth; none when no row matches. -/
def findCallChain (db : DB) (fromName toName databaseName : String)
    (maxDepth : Nat) : Option (List String × Nat) :=
  match ((chainRows db fromName databaseName maxDepth).filter
      (fun r => r.name == toName)).argmin ChainRow.depth with
  | some r => some (r.path, r.depth)
  | none => none

/-- One step of the call-graph walk, exactly as the CTE's join admits it:
the next function is a corpus row reached from the previous function's id
through some stored call edge, matched by resolved callee id or by fallback
callee name (the edge row itself is not corpus-filtered in the source). -/
def chainStep (db : DB) (databaseName : String) (u v : FunctionRow) : Prop :=
  v ∈ db.functions ∧ v.database_name = databaseName ∧
  ∃ fc ∈ db.function_calls, fc.caller_id = some u.id ∧
    (fc.callee_id = some v.id ∨ fc.callee_name = some v.name)

/-- A search chain as the CTE explores it: starts at a corpus function named
from_name, every consecutive pair is linked by chainStep, and the visited
names are pairwise distinct (the CTE's cycle avoidance excludes any name
already on the path). -/
def ChainCore (db : DB) (fromName databaseName : String)
    (fs : List FunctionRow) : Prop :=
  (∃ f0, fs.head? = some f0 ∧ f0 ∈ db.functions ∧ f0.name = fromName ∧
    f0.database_name = databaseName) ∧
  List.Chain' (chainStep db databaseName) fs ∧
  (fs.map FunctionRow.name).Nodup

/-- A search chain within the depth bound: its depth (length minus one) does
not exceed max_depth. -/
def ValidSearchChain (db : DB) (fromName databaseName : String)
    (maxDepth : Nat) (fs : List FunctionRow) : Prop :=
  ChainCore db fromName databaseName fs ∧ fs.length ≤ maxDepth + 1

/- Concrete sample data used by witnesses and counterexamples. -/

/-- A functions row of corpus_a. -/
def c1RowA : FunctionRow :=
  ⟨1, "function f@src/a.ts:1", "corpus_a", "f", "src/a.ts", 1, 0, none⟩

/-- A functions row of corpus_b with the identical natural key. -/
def c1RowB : FunctionRow :=
  ⟨2, "function f@src/a.ts:1", "corpus_b", "f", "src/a.ts", 1, 0, none⟩

/-- The store after corpus_a stored its row. -/
def c1DBA : DB := ⟨[c1RowA], [], [], [], []⟩

/-- Functions A, B, C of the sample corpus. -/
def sampleA : FunctionRow := ⟨1, "A@f.ts:1", "sample", "A", "f.ts", 1, 0, none⟩

/-- Function B of the sample corpus. -/
def sampleB : FunctionRow := ⟨2, "B@f.ts:5", "sample", "B", "f.ts", 5, 0, none⟩

/-- Function C of the sample corpus. -/
def sampleC : FunctionRow := ⟨3, "C@f.ts:9", "sample", "C", "f.ts", 9, 0, none⟩

/-- The resolved call edge A to B. -/
def sampleAB : CallRow :=
  ⟨1, "sample", "A@f.ts:1", "B@f.ts:5", some 1, some 2, some "B", "f.ts", 2⟩

/-- The resolved call edge B to C. -/
def sampleBC : CallRow :=
  ⟨2, "sample", "B@f.ts:5", "C@f.ts:9", some 2, some 3, some "C", "f.ts", 6⟩

/-- The sample corpus of the call-chain scenario. -/
def sampleDB : DB := ⟨[sampleA, sampleB, sampleC], [], [sampleAB, sampleBC], [], []⟩

/-- The caller function of the unresolved-edge corpus. -/
def unresMain : FunctionRow := ⟨1, "main@f.ts:1", "db1", "main", "f.ts", 1, 0, none⟩

/-- The function bar, stored but never resolved as a callee. -/
def unresBar : FunctionRow := ⟨2, "bar@g.ts:1", "db1", "bar", "g.ts", 1, 0, none⟩

/-- First unresolved call edge to the name bar. -/
def unresEdge1 : CallRow :=
  ⟨1, "db1", "main@f.ts:1", "unresolved:bar@f.ts:2", some 1, none, some "bar", "f.ts", 2⟩

/-- Second unresolved call edge to the name bar. -/
def unresEdge2 : CallRow :=
  ⟨2, "db1", "main@f.ts:1", "unresolved:bar@f.ts:5", some 1, none, some "bar", "f.ts", 5⟩

/-- A corpus whose two edges to bar are both unresolved. -/
def unresDB : DB := ⟨[unresMain, unresBar], [], [unresEdge1, unresEdge2], [], []⟩

/-- A function whose name shares its full trigram set with a longer name. -/
def fuzzShort : FunctionRow := ⟨1, "abab@f.ts:1", "db1", "abab", "f.ts", 1, 0, none⟩

/-- The exactly-matching function of the fuzzy counterexample. -/
def fuzzExact : FunctionRow := ⟨2, "ababab@f.ts:5", "db1", "ababab", "f.ts", 5, 0, none⟩

/-- The fuzzy-search counterexample corpus. -/
def fuzzDB : DB := ⟨[fuzzShort, fuzzExact], [], [], [], []⟩

/-- A corpus_b row surviving a corpus_a rebuild. -/
def frameRowB : FunctionRow :=
  ⟨7, "function f@lib/b.ts:3", "corpus_b", "f", "lib/b.ts", 3, 0, none⟩

/-- The pre-rebuild store of the frame witness. -/
def frameDB : DB := ⟨[frameRowB], [], [], [], []⟩

/-- The corpus_a row of the rebuild, same function name as corpus_b's. -/
def frameRowA : FunctionRow :=
  ⟨1, "function f@src/a.ts:1", "corpus_a", "f", "src/a.ts", 1, 0, none⟩

/-- The freshly extracted rows of the corpus_a rebuild. -/
def frameNewRows : NewRows := ⟨[frameRowA], [], [], []⟩

/-- The functions-table column list of the extractions table. -/
def functionsColumns : List String :=
  ["codeql_id", "name", "file", "line", "num_params", "signature"]

/-- The corpus_a function whose id a corpus_b edge resolves to. -/
def cascRowA : FunctionRow :=
  ⟨1, "function f@src/a.ts:1", "corpus_a", "f", "src/a.ts", 1, 0, none⟩

/-- A corpus_b call edge whose caller key exists only in corpus_a: the
resolver's unscoped join sets its caller_id to corpus_a's function id. -/
def cascEdgeB : CallRow :=
  ⟨5, "corpus_b", "function f@src/a.ts:1", "unresolved:g@b.ts:2", some 1, none,
    some "g", "b.ts", 2⟩

/-- A store holding a cross-corpus resolved reference. -/
def cascDB : DB := ⟨[cascRowA], [], [cascEdgeB], [], []⟩

/-- The fresh corpus_a rows of the cascade counterexample's rebuild. -/
def cascNewRows : NewRows :=
  ⟨[⟨2, "function h@src/a2.ts:1", "corpus_a", "h", "src/a2.ts", 1, 0, none⟩],
    [], [], []⟩

/-- An unresolved-callee edge whose caller is also unresolved. -/
def nullCallerEdge : CallRow :=
  ⟨3, "db1", "unresolved:someone@x.ts:1", "unresolved:baz@x.ts:2", none, none,
    some "baz", "x.ts", 2⟩

/-- A corpus holding one stored edge with both endpoints unresolved. -/
def nullCallerDB : DB := ⟨[unresMain], [], [nullCallerEdge], [], []⟩

/- ===================  Theorems  =================== -/

/- General-purpose list lemmas shared by several claims. -/

/-- A mapped update that fixes every row kept by a filter, and never changes
whether a row is kept, leaves the filtered rows unchanged. -/
theorem filter_map_invariant {α : Type} (g : α → α) (p : α → Bool) :
    ∀ l : List α, (∀ r, p r = true → g r = r) → (∀ r, p (g r) = p r) →
      (l.map g).filter p = l.filter p
  | [], _, _ => rfl
  | r :: rs, h1, h2 => by
    simp only [List.map_cons, List.filter_cons]
    rcases hp : p r with _ | _
    · rw [h2 r, hp]
      simp only [Bool.false_eq_true, if_false]
      exact filter_map_invariant g p rs h1 h2
    · rw [h2 r, hp, h1 r hp]
      simp only [if_true]
      rw [filter_map_invariant g p rs h1 h2]

/-- A pointwise-fixed map is the identity. -/
theorem map_eq_self {α : Type} (g : α → α) :
    ∀ l : List α, (∀ r ∈ l, g r = r) → l.map g = l
  | [], _ => rfl
  | r :: rs, h => by
    simp only [List.map_cons]
    rw [h r (by simp), map_eq_self g rs (fun x hx => h x (by simp [hx]))]

/- Claim C1.  The spec asserts natural keys need only be unique per corpus,
   so two corpora may both store the same codeql_id.  The schema declares
   codeql_id TEXT UNIQUE NOT NULL with no corpus scoping, so the second
   store fails: the code contradicts the corpus-scoped design used
   everywhere else (corpus tags on every row, corpus-scoped deletes and
   lookups). -/

/-- Claim C1: two corpora cannot both store a row with the identical natural
key.  corpus_a stores its functions row; corpus_b's insert of a row with the
same codeql_id but a different corpus tag is rejected by the schema's global
UNIQUE constraint, refuting per-corpus-only uniqueness. -/
theorem c1_natural_key_not_corpus_scoped :
    c1RowA.database_name ≠ c1RowB.database_name ∧
    c1RowA.codeql_id = c1RowB.codeql_id ∧
    insertFunction emptyDB c1RowA = Except.ok c1DBA ∧
    insertFunction c1DBA c1RowB =
      Except.error "duplicate key value violates unique constraint functions_codeql_id_key" :=
  ⟨by decide, rfl, rfl, rfl⟩

/- Claim C9.  The spec says malformed rows (wrong column count) are dropped
   and not fatal.  Only importCSVFallback implements that check; the batch
   ingestion of handleBuildGraphIndex pushes the short row and the INSERT
   placeholder count no longer matches the flattened values, aborting the
   build. -/

/-- Claim C9: on a functions extraction containing the malformed line
bad,row (two fields instead of six), the build-path ingestion fails with a
parameter-count mismatch instead of dropping the row, while the fallback
importer drops it and stores only the well-formed row. -/
theorem c9_malformed_row_aborts_build :
    ingestInsert ("db1") functionsColumns false ["f1,foo,a.ts,1,0,sig", "bad,row"] =
      Except.error "bind message parameter count mismatch" ∧
    importCSVFallbackCount functionsColumns ["f1,foo,a.ts,1,0,sig", "bad,row"] = 1 :=
  ⟨rfl, rfl⟩

/- Claims C5 and C6: duplicate handling of one ingestion run. -/

/-- After processing a line whose first parsed column is k, the seen set
contains k. -/
theorem ingestStep_seen_contains (databaseName : String) (hasProcessRow : Bool)
    (st : IngestState) (l k : String)
    (hne : trimStr l ≠ "")
    (hk : ((parseCSVLine l).map toField).getD 0 none = some k) :
    ((ingestStep databaseName hasProcessRow st l).seen.contains k) = true := by
  simp only [ingestStep, hk]
  rw [if_neg (by simp [hne])]
  by_cases hmem : k ∈ st.seen
  · simp [hmem]
  · simp [hmem]

/-- Processing a line whose first parsed column is already in the seen set
leaves the values unchanged and increments the skipped counter. -/
theorem ingestStep_skips_seen (databaseName : String) (hasProcessRow : Bool)
    (st : IngestState) (l k : String)
    (hne : trimStr l ≠ "")
    (hk : ((parseCSVLine l).map toField).getD 0 none = some k)
    (hmem : st.seen.contains k = true) :
    ingestStep databaseName hasProcessRow st l =
      { st with skippedDuplicates := st.skippedDuplicates + 1 } := by
  simp only [ingestStep, hk]
  rw [if_neg (by simp [hne])]
  have hmem' : k ∈ st.seen := List.mem_of_elem_eq_true hmem
  simp [hmem']

/-- Claim C5: within one ingestion run, repeating a line whose natural key
was already seen adds exactly one to the skipped-duplicate counter and
nothing to the stored values: appending a second copy of a keyed line leaves
the values of the run unchanged and increments the counter by one. -/
theorem c5_duplicate_counted_not_stored (databaseName : String)
    (hasProcessRow : Bool) (ls : List String) (l k : String)
    (hne : trimStr l ≠ "")
    (hk : ((parseCSVLine l).map toField).getD 0 none = some k) :
    (ingestRun databaseName hasProcessRow (ls ++ [l, l])).values =
      (ingestRun databaseName hasProcessRow (ls ++ [l])).values ∧
    (ingestRun databaseName hasProcessRow (ls ++ [l, l])).skippedDuplicates =
      (ingestRun databaseName hasProcessRow (ls ++ [l])).skippedDuplicates + 1 := by
  unfold ingestRun
  have e1 : ls ++ [l, l] = (ls ++ [l]) ++ [l] := by simp
  rw [e1, List.foldl_append]
  set st1 := List.foldl (ingestStep databaseName hasProcessRow) ⟨[], [], 0⟩ (ls ++ [l]) with hst1
  have hseen : st1.seen.contains k = true := by
    rw [hst1, List.foldl_append]
    exact ingestStep_seen_contains databaseName hasProcessRow _ l k hne hk
  have hstep := ingestStep_skips_seen databaseName hasProcessRow st1 l k hne hk hseen
  simp only [List.foldl_cons, List.foldl_nil]
  rw [hstep]
  exact ⟨rfl, rfl⟩

/-- Claim C5 witness: ingesting the identical call-edge line twice stores it
once and counts one skipped duplicate. -/
theorem c5_witness :
    trimStr "caller1,calleeA@a.ts:1,a.ts,1" ≠ "" ∧
    ((ingestRun ("db1") true ([] ++ ["caller1,calleeA@a.ts:1,a.ts,1", "caller1,calleeA@a.ts:1,a.ts,1"])).values =
      (ingestRun ("db1") true ([] ++ ["caller1,calleeA@a.ts:1,a.ts,1"])).values ∧
    (ingestRun ("db1") true ([] ++ ["caller1,calleeA@a.ts:1,a.ts,1", "caller1,calleeA@a.ts:1,a.ts,1"])).skippedDuplicates =
      (ingestRun ("db1") true ([] ++ ["caller1,calleeA@a.ts:1,a.ts,1"])).skippedDuplicates + 1) :=
  ⟨by decide,
    c5_duplicate_counted_not_stored ("db1") true [] ("caller1,calleeA@a.ts:1,a.ts,1")
      ("caller1") (by decide) (by rfl)⟩

/-- Claim C6: the duplicate-tracking key is solely the first parsed column.
Two non-blank lines sharing the same first parsed column, whatever their
remaining columns, yield exactly one stored row (that of the first line) and
one counted duplicate. -/
theorem c6_dedup_key_is_first_column (databaseName : String)
    (hasProcessRow : Bool) (l1 l2 k : String)
    (h1 : trimStr l1 ≠ "")
    (h2 : trimStr l2 ≠ "")
    (hk1 : ((parseCSVLine l1).map toField).getD 0 none = some k)
    (hk2 : ((parseCSVLine l2).map toField).getD 0 none = some k) :
    (ingestRun databaseName hasProcessRow [l1, l2]).values =
      [some databaseName ::
        (if hasProcessRow then
          ((parseCSVLine l1).map toField) ++
            [deriveCalleeName (((parseCSVLine l1).map toField).getD 1 none)]
        else (parseCSVLine l1).map toField)] ∧
    (ingestRun databaseName hasProcessRow [l1, l2]).skippedDuplicates = 1 := by
  unfold ingestRun
  simp only [List.foldl_cons, List.foldl_nil]
  have hfirst : ingestStep databaseName hasProcessRow ⟨[], [], 0⟩ l1 =
      ⟨[k], [some databaseName ::
        (if hasProcessRow then
          ((parseCSVLine l1).map toField) ++
            [deriveCalleeName (((parseCSVLine l1).map toField).getD 1 none)]
        else (parseCSVLine l1).map toField)], 0⟩ := by
    simp only [ingestStep, hk1]
    rw [if_neg (by simp [h1])]
    simp
  rw [hfirst]
  have hseen : (IngestState.mk [k]
      [some databaseName ::
        (if hasProcessRow then
          ((parseCSVLine l1).map toField) ++
            [deriveCalleeName (((parseCSVLine l1).map toField).getD 1 none)]
        else (parseCSVLine l1).map toField)] 0).seen.contains k = true := by
    simp
  rw [ingestStep_skips_seen databaseName hasProcessRow _ l2 k h2 hk2 hseen]
  exact ⟨rfl, rfl⟩

/-- Claim C6 witness: two call edges from the same caller to different
callees collapse to the first edge plus one counted duplicate. -/
theorem c6_witness :
    (ingestRun ("db1") true ["caller1,calleeA@a.ts:1,a.ts,1", "caller1,calleeB@a.ts:9,a.ts,9"]).values =
      [[some "db1", some "caller1", some "calleeA@a.ts:1", some "a.ts", some "1", some "calleeA"]] ∧
    (ingestRun ("db1") true ["caller1,calleeA@a.ts:1,a.ts,1", "caller1,calleeB@a.ts:9,a.ts,9"]).skippedDuplicates = 1 := by
  have h := c6_dedup_key_is_first_column ("db1") true
    ("caller1,calleeA@a.ts:1,a.ts,1") ("caller1,calleeB@a.ts:9,a.ts,9") ("caller1")
    (by decide) (by decide) (by rfl) (by rfl)
  exact ⟨by rw [h.1]; rfl, h.2⟩

/- Claim C8: required versus optional extraction capabilities. -/

/-- Claim C8: when the functions extraction capability is missing the whole
build fails fatally; when only the functions capability is present and its
rows insert cleanly, every optional fact type records a zero statistic and
the build completes. -/
theorem c8_required_fatal_optional_degrades (databaseName : String)
    (available : String → Bool) (rowsFor : String → List String) (n : Nat) :
    (available "extract-functions.ql" = false →
      runExtractionLoop databaseName available rowsFor =
        Except.error ("Required query file not found: " ++ "extract-functions.ql")) ∧
    (available "extract-functions.ql" = true →
      available "extract-calls.ql" = false →
      available "extract-classes.ql" = false →
      available "extract-methods.ql" = false →
      ingestInsert databaseName functionsColumns false (rowsFor "extract-functions.ql") =
        Except.ok n →
      runExtractionLoop databaseName available rowsFor =
        Except.ok [("functions", n), ("function_calls", 0), ("classes", 0),
          ("class_methods", 0)]) := by
  constructor
  · intro h
    simp [runExtractionLoop, extractions, runExtractionGo, h]
  · intro h1 h2 h3 h4 h5
    simp only [runExtractionLoop, extractions, runExtractionGo, h1, h2, h3, h4,
      Bool.not_true, Bool.not_false, Bool.false_eq_true, if_false, if_true]
    rw [show functionsColumns =
      ["codeql_id", "name", "file", "line", "num_params", "signature"] from rfl] at h5
    simp [h5]

/-- Claim C8 witness: with no capabilities the build errors; with only the
functions capability and one well-formed row, the build completes with zero
statistics for the optional fact types. -/
theorem c8_witness :
    (runExtractionLoop ("db1") (fun _ => false) (fun _ => []) =
      Except.error ("Required query file not found: " ++ "extract-functions.ql")) ∧
    (runExtractionLoop ("db1") (fun q => q == "extract-functions.ql")
        (fun _ => ["f1,foo,a.ts,1,0,sig"]) =
      Except.ok [("functions", 1), ("function_calls", 0), ("classes", 0),
        ("class_methods", 0)]) :=
  ⟨(c8_required_fatal_optional_degrades ("db1") (fun _ => false) (fun _ => []) 0).1 rfl,
    (c8_required_fatal_optional_degrades ("db1") (fun q => q == "extract-functions.ql")
      (fun _ => ["f1,foo,a.ts,1,0,sig"]) 1).2 rfl rfl rfl rfl (by rfl)⟩

/- Claim C7: rebuilding one corpus leaves every differently-tagged row
   untouched. -/

/-- Filtering twice with the same predicate filters once. -/
theorem filter_idem {α : Type} (p : α → Bool) (l : List α) :
    (l.filter p).filter p = l.filter p := by
  rw [List.filter_filter]
  apply List.filter_congr
  intro a _
  exact Bool.and_self (p a)

/-- A successful insertFunction appends exactly its row. -/
theorem insertFunction_ok (db db' : DB) (r : FunctionRow)
    (h : insertFunction db r = Except.ok db') :
    db' = { db with functions := db.functions ++ [r] } := by
  unfold insertFunction at h
  split at h
  · cases h
  · cases h; rfl

/-- A successful insertClass appends exactly its row. -/
theorem insertClass_ok (db db' : DB) (r : ClassRow)
    (h : insertClass db r = Except.ok db') :
    db' = { db with classes := db.classes ++ [r] } := by
  unfold insertClass at h
  split at h
  · cases h
  · cases h; rfl

/-- A successful insertFunctions run appends exactly its rows. -/
theorem insertFunctions_ok :
    ∀ (rs : List FunctionRow) (db db' : DB),
      insertFunctions db rs = Except.ok db' →
      db' = { db with functions := db.functions ++ rs }
  | [], db, db', h => by
    simp only [insertFunctions] at h
    cases h
    simp
  | r :: rs, db, db', h => by
    simp only [insertFunctions] at h
    split at h
    · cases h
    · next db1 heq =>
      have e := insertFunction_ok _ _ _ heq
      subst e
      have := insertFunctions_ok rs _ _ h
      rw [this]
      simp

/-- A successful insertClasses run appends exactly its rows. -/
theorem insertClasses_ok :
    ∀ (rs : List ClassRow) (db db' : DB),
      insertClasses db rs = Except.ok db' →
      db' = { db with classes := db.classes ++ rs }
  | [], db, db', h => by
    simp only [insertClasses] at h
    cases h
    simp
  | r :: rs, db, db', h => by
    simp only [insertClasses] at h
    split at h
    · cases h
    · next db1 heq =>
      have e := insertClass_ok _ _ _ heq
      subst e
      have := insertClasses_ok rs _ _ h
      rw [this]
      simp

/-- setCallerId preserves the corpus tag. -/
theorem setCallerId_tag (env : List FunctionRow) (dn : String) (fc : CallRow) :
    (setCallerId env dn fc).database_name = fc.database_name := by
  unfold setCallerId
  split
  · split <;> rfl
  · rfl

/-- setCallerId fixes rows of other corpora. -/
theorem setCallerId_ne (env : List FunctionRow) (dn : String) (fc : CallRow)
    (h : fc.database_name ≠ dn) : setCallerId env dn fc = fc := by
  unfold setCallerId
  rw [if_neg (by simp [h])]

/-- setCalleeId preserves the corpus tag. -/
theorem setCalleeId_tag (env : List FunctionRow) (dn : String) (fc : CallRow) :
    (setCalleeId env dn fc).database_name = fc.database_name := by
  unfold setCalleeId
  split
  · split <;> rfl
  · rfl

/-- setCalleeId fixes rows of other corpora. -/
theorem setCalleeId_ne (env : List FunctionRow) (dn : String) (fc : CallRow)
    (h : fc.database_name ≠ dn) : setCalleeId env dn fc = fc := by
  unfold setCalleeId
  rw [if_neg (by simp [h])]

/-- setParentId preserves the corpus tag. -/
theorem setParentId_tag (env : List ClassRow) (dn : String) (c : ClassRow) :
    (setParentId env dn c).database_name = c.database_name := by
  unfold setParentId
  split
  · split <;> rfl
  · rfl

/-- setParentId fixes rows of other corpora. -/
theorem setParentId_ne (env : List ClassRow) (dn : String) (c : ClassRow)
    (h : c.database_name ≠ dn) : setParentId env dn c = c := by
  unfold setParentId
  rw [if_neg (by simp [h])]

/-- setClassId preserves the corpus tag. -/
theorem setClassId_tag (env : List ClassRow) (dn : String) (cm : MethodRow) :
    (setClassId env dn cm).database_name = cm.database_name := by
  unfold setClassId
  split
  · split <;> rfl
  · rfl

/-- setClassId fixes rows of other corpora. -/
theorem setClassId_ne (env : List ClassRow) (dn : String) (cm : MethodRow)
    (h : cm.database_name ≠ dn) : setClassId env dn cm = cm := by
  unfold setClassId
  rw [if_neg (by simp [h])]

/-- setMethodId preserves the corpus tag. -/
theorem setMethodId_tag (env : List FunctionRow) (dn : String) (cm : MethodRow) :
    (setMethodId env dn cm).database_name = cm.database_name := by
  unfold setMethodId
  split
  · split <;> rfl
  · rfl

/-- setMethodId fixes rows of other corpora. -/
theorem setMethodId_ne (env : List FunctionRow) (dn : String) (cm : MethodRow)
    (h : cm.database_name ≠ dn) : setMethodId env dn cm = cm := by
  unfold setMethodId
  rw [if_neg (by simp [h])]

/-- The resolver does not touch the differently-tagged slice of any table. -/
theorem updateForeignKeys_filter_frame (db : DB) (dn : String) :
    (updateForeignKeys db dn).functions.filter (fun r => r.database_name ≠ dn) =
      db.functions.filter (fun r => r.database_name ≠ dn) ∧
    (updateForeignKeys db dn).classes.filter (fun r => r.database_name ≠ dn) =
      db.classes.filter (fun r => r.database_name ≠ dn) ∧
    (updateForeignKeys db dn).function_calls.filter (fun r => r.database_name ≠ dn) =
      db.function_calls.filter (fun r => r.database_name ≠ dn) ∧
    (updateForeignKeys db dn).class_methods.filter (fun r => r.database_name ≠ dn) =
      db.class_methods.filter (fun r => r.database_name ≠ dn) ∧
    (updateForeignKeys db dn).vars.filter (fun r => r.database_name ≠ dn) =
      db.vars.filter (fun r => r.database_name ≠ dn) := by
  unfold updateForeignKeys
  refine ⟨rfl, ?_, ?_, ?_, rfl⟩
  · exact filter_map_invariant _ _ _
      (fun r hr => setParentId_ne _ _ _ (by simpa using hr))
      (fun r => by simp [setParentId_tag])
  · rw [filter_map_invariant _ _ _
      (fun r hr => setCalleeId_ne _ _ _ (by simpa using hr))
      (fun r => by simp [setCalleeId_tag])]
    exact filter_map_invariant _ _ _
      (fun r hr => setCallerId_ne _ _ _ (by simpa using hr))
      (fun r => by simp [setCallerId_tag])
  · rw [filter_map_invariant _ _ _
      (fun r hr => setMethodId_ne _ _ _ (by simpa using hr))
      (fun r => by simp [setMethodId_tag])]
    exact filter_map_invariant _ _ _
      (fun r hr => setClassId_ne _ _ _ (by simpa using hr))
      (fun r => by simp [setClassId_tag])

/-- When no differently-tagged row holds a resolved reference into the
cleared corpus, the referential actions fire on nothing and the five DELETEs
reduce to plain corpus-scoped filters. -/
theorem clearDatabase_frame (db : DB) (databaseName : String)
    (hrefFC : ∀ fc ∈ db.function_calls, fc.database_name ≠ databaseName →
      ∀ i ∈ corpusFunctionIds db databaseName,
        fc.caller_id ≠ some i ∧ fc.callee_id ≠ some i)
    (hrefCM : ∀ cm ∈ db.class_methods, cm.database_name ≠ databaseName →
      (∀ i ∈ corpusClassIds db databaseName, cm.class_id ≠ some i) ∧
      (∀ i ∈ corpusFunctionIds db databaseName, cm.method_id ≠ some i))
    (hrefCL : ∀ c ∈ db.classes, c.database_name ≠ databaseName →
      ∀ i ∈ corpusClassIds db databaseName, c.parent_id ≠ some i) :
    (clearDatabase db databaseName).functions =
      db.functions.filter (fun r => r.database_name ≠ databaseName) ∧
    (clearDatabase db databaseName).classes =
      db.classes.filter (fun r => r.database_name ≠ databaseName) ∧
    (clearDatabase db databaseName).function_calls =
      db.function_calls.filter (fun r => r.database_name ≠ databaseName) ∧
    (clearDatabase db databaseName).class_methods =
      db.class_methods.filter (fun r => r.database_name ≠ databaseName) ∧
    (clearDatabase db databaseName).vars =
      db.vars.filter (fun r => r.database_name ≠ databaseName) := by
  refine ⟨rfl, ?_, ?_, ?_, rfl⟩
  · show (db.classes.filter (fun r => r.database_name ≠ databaseName)).map
        (fun c => match c.parent_id with
          | some i => if (corpusClassIds db databaseName).contains i then
              { c with parent_id := none } else c
          | none => c) =
      db.classes.filter (fun r => r.database_name ≠ databaseName)
    apply map_eq_self
    intro c hc
    rcases List.mem_filter.mp hc with ⟨hcm2, hcd⟩
    have hcd2 : c.database_name ≠ databaseName := by simpa using hcd
    rcases hp : c.parent_id with _ | i
    · simp only [hp]
    · simp only [hp]
      by_cases hmem : i ∈ corpusClassIds db databaseName
      · exact absurd hp (hrefCL c hcm2 hcd2 i hmem)
      · rw [if_neg (fun hcont => hmem (by simpa using hcont))]
  · show (db.function_calls.filter (fun r => r.database_name ≠ databaseName)).filter
        (fun r =>
          (match r.caller_id with
            | some i => !((corpusFunctionIds db databaseName).contains i)
            | none => true) &&
          (match r.callee_id with
            | some i => !((corpusFunctionIds db databaseName).contains i)
            | none => true)) =
      db.function_calls.filter (fun r => r.database_name ≠ databaseName)
    apply List.filter_eq_self.mpr
    intro r hr
    rcases List.mem_filter.mp hr with ⟨hm, hd⟩
    have hd2 : r.database_name ≠ databaseName := by simpa using hd
    rw [Bool.and_eq_true]
    constructor
    · rcases hp : r.caller_id with _ | i
      · simp [hp]
      · simp only [hp]
        by_cases hmem : i ∈ corpusFunctionIds db databaseName
        · exact absurd hp (hrefFC r hm hd2 i hmem).1
        · simp [hmem]
    · rcases hp : r.callee_id with _ | i
      · simp [hp]
      · simp only [hp]
        by_cases hmem : i ∈ corpusFunctionIds db databaseName
        · exact absurd hp (hrefFC r hm hd2 i hmem).2
        · simp [hmem]
  · show ((db.class_methods.filter (fun r => r.database_name ≠ databaseName)).filter
        (fun r => match r.class_id with
          | some i => !((corpusClassIds db databaseName).contains i)
          | none => true)).filter
        (fun r => match r.method_id with
          | some i => !((corpusFunctionIds db databaseName).contains i)
          | none => true) =
      db.class_methods.filter (fun r => r.database_name ≠ databaseName)
    have h1 : (db.class_methods.filter (fun r => r.database_name ≠ databaseName)).filter
        (fun r => match r.class_id with
          | some i => !((corpusClassIds db databaseName).contains i)
          | none => true) =
        db.class_methods.filter (fun r => r.database_name ≠ databaseName) := by
      apply List.filter_eq_self.mpr
      intro r hr
      rcases List.mem_filter.mp hr with ⟨hm, hd⟩
      have hd2 : r.database_name ≠ databaseName := by simpa using hd
      rcases hp : r.class_id with _ | i
      · simp [hp]
      · simp only [hp]
        by_cases hmem : i ∈ corpusClassIds db databaseName
        · exact absurd hp ((hrefCM r hm hd2).1 i hmem)
        · simp [hmem]
    rw [h1]
    apply List.filter_eq_self.mpr
    intro r hr
    rcases List.mem_filter.mp hr with ⟨hm, hd⟩
    have hd2 : r.database_name ≠ databaseName := by simpa using hd
    rcases hp : r.method_id with _ | i
    · simp [hp]
    · simp only [hp]
      by_cases hmem : i ∈ corpusFunctionIds db databaseName
      · exact absurd hp ((hrefCM r hm hd2).2 i hmem)
      · simp [hmem]

/-- Claim C7 amended: the clear-then-reinsert rebuild of one corpus,
followed by the resolver, leaves the rows of every other corpus exactly as
they were, provided no differently-tagged row holds a resolved reference
(caller, callee or method id into the corpus's functions; class or parent id
into the corpus's classes) — the schema's referential actions would
cascade-delete or null such referencing rows.  Under that proviso, when
every fresh row carries the rebuilt corpus's tag and the build succeeds, the
differently-tagged slice of each of the five tables is unchanged, fields
included. -/
theorem c7_rebuild_preserves_other_corpora (db : DB) (databaseName : String)
    (rows : NewRows) (db' : DB)
    (hf : ∀ r ∈ rows.functions, r.database_name = databaseName)
    (hc : ∀ r ∈ rows.classes, r.database_name = databaseName)
    (hfc : ∀ r ∈ rows.function_calls, r.database_name = databaseName)
    (hcm : ∀ r ∈ rows.class_methods, r.database_name = databaseName)
    (hrefFC : ∀ fc ∈ db.function_calls, fc.database_name ≠ databaseName →
      ∀ i ∈ corpusFunctionIds db databaseName,
        fc.caller_id ≠ some i ∧ fc.callee_id ≠ some i)
    (hrefCM : ∀ cm ∈ db.class_methods, cm.database_name ≠ databaseName →
      (∀ i ∈ corpusClassIds db databaseName, cm.class_id ≠ some i) ∧
      (∀ i ∈ corpusFunctionIds db databaseName, cm.method_id ≠ some i))
    (hrefCL : ∀ c ∈ db.classes, c.database_name ≠ databaseName →
      ∀ i ∈ corpusClassIds db databaseName, c.parent_id ≠ some i)
    (hok : buildGraphIndex db databaseName rows = Except.ok db') :
    db'.functions.filter (fun r => r.database_name ≠ databaseName) =
      db.functions.filter (fun r => r.database_name ≠ databaseName) ∧
    db'.classes.filter (fun r => r.database_name ≠ databaseName) =
      db.classes.filter (fun r => r.database_name ≠ databaseName) ∧
    db'.function_calls.filter (fun r => r.database_name ≠ databaseName) =
      db.function_calls.filter (fun r => r.database_name ≠ databaseName) ∧
    db'.class_methods.filter (fun r => r.database_name ≠ databaseName) =
      db.class_methods.filter (fun r => r.database_name ≠ databaseName) ∧
    db'.vars.filter (fun r => r.database_name ≠ databaseName) =
      db.vars.filter (fun r => r.database_name ≠ databaseName) := by
  unfold buildGraphIndex at hok
  split at hok
  · cases hok
  · next db1 hrb =>
    cases hok
    simp only [rebuildCorpus] at hrb
    split at hrb
    · cases hrb
    · next db1a hIF =>
      split at hrb
      · cases hrb
      · next db3 hIC =>
        cases hrb
        have e1a := insertFunctions_ok rows.functions _ _ hIF
        have e3 := insertClasses_ok rows.classes _ _ hIC
        subst e1a
        subst e3
        have hclear := clearDatabase_frame db databaseName hrefFC hrefCM hrefCL
        have frame := updateForeignKeys_filter_frame
          ⟨(clearDatabase db databaseName).functions ++ rows.functions,
            (clearDatabase db databaseName).classes ++ rows.classes,
            (clearDatabase db databaseName).function_calls ++ rows.function_calls,
            (clearDatabase db databaseName).class_methods ++ rows.class_methods,
            (clearDatabase db databaseName).vars⟩ databaseName
        have hf0 : rows.functions.filter
            (fun r => r.database_name ≠ databaseName) = [] :=
          List.filter_eq_nil_iff.mpr (fun r hr => by simp [hf r hr])
        have hc0 : rows.classes.filter
            (fun r => r.database_name ≠ databaseName) = [] :=
          List.filter_eq_nil_iff.mpr (fun r hr => by simp [hc r hr])
        have hfc0 : rows.function_calls.filter
            (fun r => r.database_name ≠ databaseName) = [] :=
          List.filter_eq_nil_iff.mpr (fun r hr => by simp [hfc r hr])
        have hcm0 : rows.class_methods.filter
            (fun r => r.database_name ≠ databaseName) = [] :=
          List.filter_eq_nil_iff.mpr (fun r hr => by simp [hcm r hr])
        refine ⟨?_, ?_, ?_, ?_, ?_⟩
        · rw [frame.1]
          simp only [List.filter_append, hf0]
          simp only [List.append_nil]
          rw [hclear.1]
          exact filter_idem _ _
        · rw [frame.2.1]
          simp only [List.filter_append, hc0]
          simp only [List.append_nil]
          rw [hclear.2.1]
          exact filter_idem _ _
        · rw [frame.2.2.1]
          simp only [List.filter_append, hfc0]
          simp only [List.append_nil]
          rw [hclear.2.2.1]
          exact filter_idem _ _
        · rw [frame.2.2.2.1]
          simp only [List.filter_append, hcm0]
          simp only [List.append_nil]
          rw [hclear.2.2.2.1]
          exact filter_idem _ _
        · rw [frame.2.2.2.2]
          rw [hclear.2.2.2.2]
          exact filter_idem _ _

/-- Claim C7 counterexample: a corpus_b call edge whose caller id resolved
(through the resolver's unscoped natural-key join) to a corpus_a function is
cascade-deleted when corpus_a is rebuilt: the schema's ON DELETE CASCADE on
function_calls.caller_id fires when corpus_a's functions rows are deleted,
so a row tagged corpus_b does not survive the rebuild unchanged, refuting
the unconditional claim. -/
theorem c7_counterexample :
    cascEdgeB.database_name = "corpus_b" ∧
    cascEdgeB ∈ cascDB.function_calls ∧
    (∀ r ∈ cascNewRows.functions, r.database_name = "corpus_a") ∧
    buildGraphIndex cascDB ("corpus_a") cascNewRows =
      Except.ok ⟨[⟨2, "function h@src/a2.ts:1", "corpus_a", "h", "src/a2.ts", 1, 0, none⟩],
        [], [], [], []⟩ ∧
    cascEdgeB ∉ (DB.mk
      [⟨2, "function h@src/a2.ts:1", "corpus_a", "h", "src/a2.ts", 1, 0, none⟩]
      [] [] [] []).function_calls := by
  refine ⟨rfl, by decide, by decide, by rfl, by decide⟩

/-- Claim C7 amended witness: rebuilding corpus_a, whose fresh row has the
same function name f as corpus_b's surviving row, leaves corpus_b's slice
untouched — here no corpus_b row references corpus_a ids, so the proviso
holds. -/
theorem c7_witness :
    (∀ r ∈ frameNewRows.functions, r.database_name = "corpus_a") ∧
    buildGraphIndex frameDB ("corpus_a") frameNewRows =
      Except.ok ⟨[frameRowB, frameRowA], [], [], [], []⟩ ∧
    frameRowB.name = frameRowA.name ∧
    (DB.mk [frameRowB, frameRowA] [] [] [] []).functions.filter
        (fun r => r.database_name ≠ "corpus_a") =
      frameDB.functions.filter (fun r => r.database_name ≠ "corpus_a") :=
  ⟨by decide, by rfl, rfl,
    (c7_rebuild_preserves_other_corpora frameDB ("corpus_a") frameNewRows
      ⟨[frameRowB, frameRowA], [], [], [], []⟩
      (by decide) (by decide) (by decide) (by decide)
      (by decide) (by decide) (by decide) (by rfl)).1⟩

/- Claim C3: the resolver is idempotent.  The five passes share the
   genericPass shape; the setters are definitionally its instances. -/

/-- find? only depends on the pointwise values of its predicate. -/
theorem find?_congr {α : Type} (p q : α → Bool) :
    ∀ l : List α, (∀ a, p a = q a) → l.find? p = l.find? q
  | [], _ => rfl
  | a :: l, h => by
    simp only [List.find?]
    rw [h a]
    rcases q a with _ | _
    · exact find?_congr p q l h
    · rfl

/-- Pass 1 is an instance of the generic shape. -/
theorem setCallerId_eq (env : List FunctionRow) (dn : String) :
    setCallerId env dn =
      genericPass CallRow.database_name CallRow.caller_id
        (fun x i => { x with caller_id := some i })
        (fun x f => f.codeql_id == x.caller_codeql_id) FunctionRow.id env dn := by
  funext x
  unfold setCallerId genericPass
  rcases h : List.find? (fun f => f.codeql_id == x.caller_codeql_id) env with _ | e <;> simp [h]

/-- Pass 2 is an instance of the generic shape. -/
theorem setCalleeId_eq (env : List FunctionRow) (dn : String) :
    setCalleeId env dn =
      genericPass CallRow.database_name CallRow.callee_id
        (fun x i => { x with callee_id := some i })
        (fun x f => f.codeql_id == x.callee_codeql_id) FunctionRow.id env dn := by
  funext x
  unfold setCalleeId genericPass
  rcases h : List.find? (fun f => f.codeql_id == x.callee_codeql_id) env with _ | e <;> simp [h]

/-- Pass 3 is an instance of the generic shape. -/
theorem setParentId_eq (env : List ClassRow) (dn : String) :
    setParentId env dn =
      genericPass ClassRow.database_name ClassRow.parent_id
        (fun x i => { x with parent_id := some i })
        (fun x c => some c.codeql_id == x.parent_codeql_id) ClassRow.id env dn := by
  funext x
  unfold setParentId genericPass
  rcases h : List.find? (fun c => some c.codeql_id == x.parent_codeql_id) env with _ | e <;> simp [h]

/-- Pass 4 is an instance of the generic shape. -/
theorem setClassId_eq (env : List ClassRow) (dn : String) :
    setClassId env dn =
      genericPass MethodRow.database_name MethodRow.class_id
        (fun x i => { x with class_id := some i })
        (fun x c => c.codeql_id == x.class_codeql_id) ClassRow.id env dn := by
  funext x
  unfold setClassId genericPass
  rcases h : List.find? (fun c => c.codeql_id == x.class_codeql_id) env with _ | e <;> simp [h]

/-- Pass 5 is an instance of the generic shape. -/
theorem setMethodId_eq (env : List FunctionRow) (dn : String) :
    setMethodId env dn =
      genericPass MethodRow.database_name MethodRow.method_id
        (fun x i => { x with method_id := some i })
        (fun x f => f.codeql_id == x.method_codeql_id) FunctionRow.id env dn := by
  funext x
  unfold setMethodId genericPass
  rcases h : List.find? (fun f => f.codeql_id == x.method_codeql_id) env with _ | e <;> simp [h]

/-- Equation: a pass with a false guard returns its row. -/
theorem genericPass_neg {α β : Type} (tagf : α → String) (getf : α → Option Nat)
    (setf : α → Nat → α) (predf : α → β → Bool) (valf : β → Nat)
    (env : List β) (dn : String) (x : α)
    (h : ¬(tagf x == dn && getf x == none) = true) :
    genericPass tagf getf setf predf valf env dn x = x := by
  unfold genericPass; rw [if_neg h]

/-- Equation: a pass with a true guard but no join match returns its row. -/
theorem genericPass_pos_none {α β : Type} (tagf : α → String) (getf : α → Option Nat)
    (setf : α → Nat → α) (predf : α → β → Bool) (valf : β → Nat)
    (env : List β) (dn : String) (x : α)
    (h : (tagf x == dn && getf x == none) = true)
    (hf : env.find? (predf x) = none) :
    genericPass tagf getf setf predf valf env dn x = x := by
  unfold genericPass; rw [if_pos h, hf]

/-- Equation: a pass with a true guard and a join match sets the target. -/
theorem genericPass_pos_some {α β : Type} (tagf : α → String) (getf : α → Option Nat)
    (setf : α → Nat → α) (predf : α → β → Bool) (valf : β → Nat)
    (env : List β) (dn : String) (x : α) (e : β)
    (h : (tagf x == dn && getf x == none) = true)
    (hf : env.find? (predf x) = some e) :
    genericPass tagf getf setf predf valf env dn x = setf x (valf e) := by
  unfold genericPass; rw [if_pos h, hf]

/-- A generic pass is idempotent pointwise: it only fires on a null target,
and firing fills the target. -/
theorem genericPass_idem {α β : Type} (tagf : α → String) (getf : α → Option Nat)
    (setf : α → Nat → α) (predf : α → β → Bool) (valf : β → Nat)
    (env : List β) (dn : String)
    (hget : ∀ y i, getf (setf y i) = some i) (x : α) :
    genericPass tagf getf setf predf valf env dn
      (genericPass tagf getf setf predf valf env dn x) =
    genericPass tagf getf setf predf valf env dn x := by
  by_cases hcond : (tagf x == dn && getf x == none) = true
  · rcases hf : env.find? (predf x) with _ | e
    · have e1 := genericPass_pos_none tagf getf setf predf valf env dn x hcond hf
      rw [e1]; exact e1
    · have e1 := genericPass_pos_some tagf getf setf predf valf env dn x e hcond hf
      rw [e1]
      exact genericPass_neg tagf getf setf predf valf env dn _ (by simp [hget])
  · have e1 := genericPass_neg tagf getf setf predf valf env dn x hcond
    rw [e1]; exact e1

/-- A row fixed by pass P stays fixed by P after another pass Q runs, as
long as Q's update preserves every field P reads. -/
theorem genericPass_fix_of {α β γ : Type}
    (tagf : α → String) (getf : α → Option Nat) (setf : α → Nat → α)
    (predf : α → β → Bool) (valf : β → Nat) (env : List β)
    (tagg : α → String) (getg : α → Option Nat) (setg : α → Nat → α)
    (predg : α → γ → Bool) (valg : γ → Nat) (envg : List γ)
    (dn : String) (x : α)
    (hget : ∀ y i, getf (setf y i) = some i)
    (htagQ : ∀ y i, tagf (setg y i) = tagf y)
    (hgetQ : ∀ y i, getf (setg y i) = getf y)
    (hpredQ : ∀ y i, predf (setg y i) = predf y)
    (hfix : genericPass tagf getf setf predf valf env dn x = x) :
    genericPass tagf getf setf predf valf env dn
      (genericPass tagg getg setg predg valg envg dn x) =
      genericPass tagg getg setg predg valg envg dn x := by
  have hshape : genericPass tagg getg setg predg valg envg dn x = x ∨
      ∃ i, genericPass tagg getg setg predg valg envg dn x = setg x i := by
    by_cases hc : (tagg x == dn && getg x == none) = true
    · rcases hg : envg.find? (predg x) with _ | e
      · exact Or.inl (genericPass_pos_none tagg getg setg predg valg envg dn x hc hg)
      · exact Or.inr ⟨valg e, genericPass_pos_some tagg getg setg predg valg envg dn x e hc hg⟩
    · exact Or.inl (genericPass_neg tagg getg setg predg valg envg dn x hc)
  rcases hshape with hq | ⟨i, hq⟩
  · rw [hq]; exact hfix
  · rw [hq]
    by_cases hcond : (tagf x == dn && getf x == none) = true
    · rcases hf : env.find? (predf x) with _ | e
      · exact genericPass_pos_none tagf getf setf predf valf env dn _
          (by rw [htagQ, hgetQ]; exact hcond) (by rw [hpredQ]; exact hf)
      · exfalso
        have e1 := genericPass_pos_some tagf getf setf predf valf env dn x e hcond hf
        rw [hfix] at e1
        have e2 : getf x = some (valf e) := by
          conv_lhs => rw [e1]
          exact hget x (valf e)
        simp only [Bool.and_eq_true, beq_iff_eq] at hcond
        rw [hcond.2] at e2
        cases e2
    · exact genericPass_neg tagf getf setf predf valf env dn _
        (by rw [htagQ, hgetQ]; exact hcond)

/-- A self-join pass applied a second time, with the once-updated table both
as input and as join environment, changes nothing: the update preserves the
fields the join reads. -/
theorem genericPass_env_stable {α : Type}
    (tagf : α → String) (getf : α → Option Nat) (setf : α → Nat → α)
    (predf : α → α → Bool) (valf : α → Nat) (E : List α) (dn : String)
    (hget : ∀ y i, getf (setf y i) = some i)
    (hpredenv : ∀ y e i, predf y (setf e i) = predf y e)
    (x : α) :
    genericPass tagf getf setf predf valf
        (E.map (genericPass tagf getf setf predf valf E dn)) dn
      (genericPass tagf getf setf predf valf E dn x) =
      genericPass tagf getf setf predf valf E dn x := by
  by_cases hcond : (tagf x == dn && getf x == none) = true
  · rcases hf : E.find? (predf x) with _ | e
    · have e1 := genericPass_pos_none tagf getf setf predf valf E dn x hcond hf
      rw [e1]
      have hpointwise : ∀ a : α,
          predf x (genericPass tagf getf setf predf valf E dn a) = predf x a := by
        intro a
        by_cases hc : (tagf a == dn && getf a == none) = true
        · rcases hg : E.find? (predf a) with _ | e2
          · rw [genericPass_pos_none tagf getf setf predf valf E dn a hc hg]
          · rw [genericPass_pos_some tagf getf setf predf valf E dn a e2 hc hg]
            exact hpredenv x a (valf e2)
        · rw [genericPass_neg tagf getf setf predf valf E dn a hc]
      have hfind : (E.map (genericPass tagf getf setf predf valf E dn)).find?
          (predf x) = none := by
        rw [List.find?_map]
        have hcg : List.find?
            (predf x ∘ genericPass tagf getf setf predf valf E dn) E =
            List.find? (predf x) E :=
          find?_congr _ _ E (fun a => hpointwise a)
        rw [hcg, hf]
        rfl
      exact genericPass_pos_none tagf getf setf predf valf _ dn x hcond hfind
    · have e1 := genericPass_pos_some tagf getf setf predf valf E dn x e hcond hf
      rw [e1]
      exact genericPass_neg tagf getf setf predf valf _ dn _ (by simp [hget])
  · have e1 := genericPass_neg tagf getf setf predf valf E dn x hcond
    rw [e1]
    exact genericPass_neg tagf getf setf predf valf _ dn x hcond

/-- Pointwise stability of the two call-edge passes composed. -/
theorem callRow_resolution_stable (env : List FunctionRow) (dn : String)
    (x : CallRow) :
    setCalleeId env dn (setCallerId env dn (setCalleeId env dn (setCallerId env dn x))) =
      setCalleeId env dn (setCallerId env dn x) := by
  rw [setCallerId_eq env dn, setCalleeId_eq env dn]
  have h1 := genericPass_idem CallRow.database_name CallRow.caller_id
    (fun y i => { y with caller_id := some i })
    (fun y f => f.codeql_id == y.caller_codeql_id) FunctionRow.id env dn
    (fun y i => rfl) x
  have h2 := genericPass_fix_of CallRow.database_name CallRow.caller_id
    (fun y i => { y with caller_id := some i })
    (fun y f => f.codeql_id == y.caller_codeql_id) FunctionRow.id env
    CallRow.database_name CallRow.callee_id
    (fun y i => { y with callee_id := some i })
    (fun y f => f.codeql_id == y.callee_codeql_id) FunctionRow.id env
    dn (genericPass CallRow.database_name CallRow.caller_id
      (fun y i => { y with caller_id := some i })
      (fun y f => f.codeql_id == y.caller_codeql_id) FunctionRow.id env dn x)
    (fun y i => rfl) (fun y i => rfl) (fun y i => rfl) (fun y i => rfl) h1
  rw [h2]
  exact genericPass_idem CallRow.database_name CallRow.callee_id
    (fun y i => { y with callee_id := some i })
    (fun y f => f.codeql_id == y.callee_codeql_id) FunctionRow.id env dn
    (fun y i => rfl) _

/-- Pointwise stability of the two class-methods passes composed. -/
theorem methodRow_resolution_stable (envC : List ClassRow)
    (envF : List FunctionRow) (dn : String) (x : MethodRow) :
    setMethodId envF dn (setClassId envC dn (setMethodId envF dn (setClassId envC dn x))) =
      setMethodId envF dn (setClassId envC dn x) := by
  rw [setClassId_eq envC dn, setMethodId_eq envF dn]
  have h1 := genericPass_idem MethodRow.database_name MethodRow.class_id
    (fun y i => { y with class_id := some i })
    (fun y c => c.codeql_id == y.class_codeql_id) ClassRow.id envC dn
    (fun y i => rfl) x
  have h2 := genericPass_fix_of MethodRow.database_name MethodRow.class_id
    (fun y i => { y with class_id := some i })
    (fun y c => c.codeql_id == y.class_codeql_id) ClassRow.id envC
    MethodRow.database_name MethodRow.method_id
    (fun y i => { y with method_id := some i })
    (fun y f => f.codeql_id == y.method_codeql_id) FunctionRow.id envF
    dn (genericPass MethodRow.database_name MethodRow.class_id
      (fun y i => { y with class_id := some i })
      (fun y c => c.codeql_id == y.class_codeql_id) ClassRow.id envC dn x)
    (fun y i => rfl) (fun y i => rfl) (fun y i => rfl) (fun y i => rfl) h1
  rw [h2]
  exact genericPass_idem MethodRow.database_name MethodRow.method_id
    (fun y i => { y with method_id := some i })
    (fun y f => f.codeql_id == y.method_codeql_id) FunctionRow.id envF dn
    (fun y i => rfl) _

/-- The classes self-join pass applied a second time changes nothing. -/
theorem classesPass_stable (C0 : List ClassRow) (dn : String) :
    (C0.map (setParentId C0 dn)).map
        (setParentId (C0.map (setParentId C0 dn)) dn) =
      C0.map (setParentId C0 dn) := by
  apply map_eq_self
  intro y hy
  rcases List.mem_map.mp hy with ⟨x, _, hx⟩
  subst hx
  rw [setParentId_eq (C0.map (setParentId C0 dn)) dn, setParentId_eq C0 dn]
  exact genericPass_env_stable ClassRow.database_name ClassRow.parent_id
    (fun y i => { y with parent_id := some i })
    (fun y c => some c.codeql_id == y.parent_codeql_id) ClassRow.id C0 dn
    (fun y i => rfl) (fun y e i => rfl) x

/-- Claim C3: the reference-resolution pass is idempotent.  Every one of its
four update passes touches only rows whose target id is still null, so
running updateForeignKeys a second time on the resulting store is a no-op:
the state after two applications equals the state after one, on every
corpus and store. -/
theorem c3_resolver_idempotent (db : DB) (databaseName : String) :
    updateForeignKeys (updateForeignKeys db databaseName) databaseName =
      updateForeignKeys db databaseName := by
  apply DB.ext
  · rfl
  · exact classesPass_stable db.classes databaseName
  · show ((db.function_calls.map (setCallerId db.functions databaseName)).map
        (setCalleeId db.functions databaseName) |>.map
          (setCallerId db.functions databaseName) |>.map
          (setCalleeId db.functions databaseName)) =
      (db.function_calls.map (setCallerId db.functions databaseName)).map
        (setCalleeId db.functions databaseName)
    simp only [List.map_map]
    apply List.map_congr_left
    intro x _
    exact callRow_resolution_stable db.functions databaseName x
  · show ((db.class_methods.map
          (setClassId (db.classes.map (setParentId db.classes databaseName)) databaseName)).map
        (setMethodId db.functions databaseName) |>.map
          (setClassId ((db.classes.map (setParentId db.classes databaseName)).map
            (setParentId (db.classes.map (setParentId db.classes databaseName)) databaseName)) databaseName) |>.map
          (setMethodId db.functions databaseName)) =
      (db.class_methods.map
          (setClassId (db.classes.map (setParentId db.classes databaseName)) databaseName)).map
        (setMethodId db.functions databaseName)
    rw [classesPass_stable db.classes databaseName]
    simp only [List.map_map]
    apply List.map_congr_left
    intro x _
    exact methodRow_resolution_stable
      (db.classes.map (setParentId db.classes databaseName)) db.functions databaseName x
  · rfl

/- Claim C4: unresolved call edges.  Name retention holds only for callee
   references matching the two recognized at-sign forms; the name-based
   caller lookup reaches unresolved-callee edges only through the inner join
   on the resolved caller id; and the hot-spot aggregation joins on the
   resolved callee id only, so unresolved edges are never counted there. -/

/-- takeWhile over characters that all satisfy the predicate, stopped by an
at sign. -/
theorem takeWhile_until_stop (lead rest : List Char)
    (h : ∀ c ∈ lead, c ≠ '@') :
    (lead ++ '@' :: rest).takeWhile (fun c => c != '@') = lead := by
  induction lead with
  | nil => simp
  | cons a t ih =>
    have ha : (a != '@') = true := by
      simp only [bne_iff_ne, ne_eq]
      exact h a (List.mem_cons_self a t)
    simp only [List.cons_append, List.takeWhile_cons, ha, if_true]
    rw [ih (fun c hc => h c (List.mem_cons_of_mem a hc))]

/-- extractBefore on a string made of a nonempty at-sign-free lead, an at
sign, and a remainder returns the lead. -/
theorem extractBefore_at_split (lead rest : List Char)
    (hne : lead ≠ []) (h : ∀ c ∈ lead, c ≠ '@') :
    extractBefore (String.mk (lead ++ '@' :: rest)) = some (String.mk lead) := by
  have key : (String.mk (lead ++ '@' :: rest)).toList.takeWhile (fun c => c != '@') = lead :=
    takeWhile_until_stop lead rest h
  have h1 : 0 < lead.length := List.length_pos.mpr hne
  have h2 : lead.length < (String.mk (lead ++ '@' :: rest)).toList.length := by
    show lead.length < (lead ++ '@' :: rest).length
    rw [List.length_append]
    simp
  simp only [extractBefore, key]
  simp [h1, h2]

/-- A list is a Boolean prefix of itself followed by anything. -/
theorem isPrefixOf_append_self (l1 l2 : List Char) :
    l1.isPrefixOf (l1 ++ l2) = true := by
  induction l1 with
  | nil => cases l2 <;> rfl
  | cons a t ih =>
    show (a == a && t.isPrefixOf (t ++ l2)) = true
    rw [beq_self_eq_true, Bool.true_and, ih]

/-- Character list of the concatenation name-at-location. -/
theorem toList_append_at (nm loc : String) :
    (nm ++ "@" ++ loc).toList = nm.toList ++ '@' :: loc.toList := by
  show ((nm.toList ++ ['@']) ++ loc.toList) = nm.toList ++ '@' :: loc.toList
  simp

/-- Character list of the concatenation tag-name-at-location. -/
theorem toList_unresolved_append (nm loc : String) :
    (unresolvedTag ++ nm ++ "@" ++ loc).toList
      = unresolvedTag.toList ++ (nm.toList ++ '@' :: loc.toList) := by
  show (((unresolvedTag.toList ++ nm.toList) ++ ['@']) ++ loc.toList)
      = unresolvedTag.toList ++ (nm.toList ++ '@' :: loc.toList)
  simp

/-- The callee-name processor recovers the name from a tagged unresolved
reference of the recognized form. -/
theorem deriveCalleeName_unresolved_ref (nm loc : String)
    (hne : nm.toList ≠ []) (h : ∀ c ∈ nm.toList, c ≠ '@') :
    deriveCalleeName (some (unresolvedTag ++ nm ++ "@" ++ loc)) = some nm := by
  have hs : (unresolvedTag ++ nm ++ "@" ++ loc)
      = String.mk (unresolvedTag.toList ++ (nm.toList ++ '@' :: loc.toList)) :=
    congrArg String.mk (toList_unresolved_append nm loc)
  rw [hs]
  simp only [deriveCalleeName]
  have ht : (String.mk (unresolvedTag.toList ++ (nm.toList ++ '@' :: loc.toList))).toList
      = unresolvedTag.toList ++ (nm.toList ++ '@' :: loc.toList) := rfl
  rw [ht, isPrefixOf_append_self]
  have hd : (unresolvedTag.toList ++ (nm.toList ++ '@' :: loc.toList)).drop unresolvedTag.length
      = nm.toList ++ '@' :: loc.toList := by
    have hl : unresolvedTag.length = unresolvedTag.toList.length := rfl
    rw [hl, List.drop_left]
  rw [if_pos rfl, hd]
  exact extractBefore_at_split nm.toList loc.toList hne h

/-- The callee-name processor recovers the name from an untagged reference
of the recognized form. -/
theorem deriveCalleeName_plain_ref (nm loc : String)
    (hne : nm.toList ≠ []) (h : ∀ c ∈ nm.toList, c ≠ '@')
    (hnp : unresolvedTag.toList.isPrefixOf (nm ++ "@" ++ loc).toList = false) :
    deriveCalleeName (some (nm ++ "@" ++ loc)) = some nm := by
  have hs : (nm ++ "@" ++ loc) = String.mk (nm.toList ++ '@' :: loc.toList) :=
    congrArg String.mk (toList_append_at nm loc)
  rw [hs] at hnp ⊢
  simp only [deriveCalleeName]
  have ht : (String.mk (nm.toList ++ '@' :: loc.toList)).toList
      = nm.toList ++ '@' :: loc.toList := rfl
  rw [ht] at hnp ⊢
  rw [hnp]
  rw [if_neg (by simp)]
  exact extractBefore_at_split nm.toList loc.toList hne h

/-- Claim C4 counterexample: three failures of the original claim.  (i) The
hot-spot half: function bar is the target of two unresolved edges that carry
the fallback name bar; the name-based caller lookup returns both call sites,
yet the hot-spot aggregation — which joins edges on the resolved callee
id — reports nothing.  (ii) The caller-lookup half needs a resolved caller:
an edge whose caller is also unresolved carries the fallback name baz, yet
the lookup for baz returns nothing, its inner join on caller.id finding no
row.  (iii) Name retention fails on a reference without the at-sign
separator: the ingested row derives a null callee name. -/
theorem c4_counterexample :
    (unresEdge1.callee_id = none ∧ unresEdge1.callee_name = some "bar" ∧
      unresEdge2.callee_id = none ∧ unresEdge2.callee_name = some "bar" ∧
      (findCallers unresDB ("bar") ("db1")).length = 2 ∧
      hotSpots unresDB ("db1") = []) ∧
    (nullCallerEdge ∈ nullCallerDB.function_calls ∧
      nullCallerEdge.database_name = "db1" ∧
      nullCallerEdge.callee_id = none ∧
      nullCallerEdge.callee_name = some "baz" ∧
      nullCallerEdge.caller_id = none ∧
      findCallers nullCallerDB ("baz") ("db1") = []) ∧
    (deriveCalleeName (some ("unresolved:qux")) = none ∧
      (ingestRun ("db1") true ["caller9,unresolved:qux,f.ts,9"]).values =
        [[some "db1", some "caller9", some "unresolved:qux", some "f.ts", some "9",
          none]]) := by
  decide

/-- Claim C4 amended: a stored call edge's unresolved callee keeps its
human-readable name exactly when the callee reference matches one of the
two recognized forms — tagged unresolved:(name)@location or untagged
(name)@location with a nonempty name free of at signs; a reference without
the at-sign separator yields a null stored name.  The name-based caller
lookup returns an unresolved edge carrying a fallback name provided its
caller id resolved to a stored function (an edge whose caller is also
unresolved is invisible there); and the hot-spot aggregation, joining on
the resolved callee id only, never counts unresolved edges — removing
every edge with a null callee id does not change its result. -/
theorem c4_retention_and_visibility_amended :
    (∀ (nm loc : String), nm.toList ≠ [] → (∀ c ∈ nm.toList, c ≠ '@') →
      deriveCalleeName (some (unresolvedTag ++ nm ++ "@" ++ loc)) = some nm) ∧
    (∀ (nm loc : String), nm.toList ≠ [] → (∀ c ∈ nm.toList, c ≠ '@') →
      unresolvedTag.toList.isPrefixOf (nm ++ "@" ++ loc).toList = false →
      deriveCalleeName (some (nm ++ "@" ++ loc)) = some nm) ∧
    (∀ (db : DB) (databaseName n : String) (fc : CallRow) (caller : FunctionRow),
      fc ∈ db.function_calls → fc.database_name = databaseName →
      fc.callee_id = none → fc.callee_name = some n →
      caller ∈ db.functions → fc.caller_id = some caller.id →
      (⟨caller.name, caller.file, fc.line, unresolvedResultTag⟩ : CallerResult) ∈
        findCallersAll db n databaseName) ∧
    (∀ (db : DB) (databaseName : String),
      hotSpotsAll { db with
          function_calls := db.function_calls.filter (fun fc => fc.callee_id.isSome) }
        databaseName = hotSpotsAll db databaseName) := by
  refine ⟨fun nm loc hne h => deriveCalleeName_unresolved_ref nm loc hne h,
    fun nm loc hne h hnp => deriveCalleeName_plain_ref nm loc hne h hnp, ?_, ?_⟩
  · intro db databaseName n fc caller hfc hdb hnone hname hcm hcid
    unfold findCallersAll
    apply List.mem_flatMap.mpr
    refine ⟨fc, hfc, ?_⟩
    apply List.mem_flatMap.mpr
    refine ⟨caller, ?_, ?_⟩
    · exact List.mem_filter.mpr ⟨hcm, by rw [hcid]; simp⟩
    · have hcallees : db.functions.filter (fun f => fc.callee_id == some f.id) = [] := by
        rw [hnone]
        exact List.filter_eq_nil_iff.mpr (fun f _ => by simp)
      simp only [hcallees, List.isEmpty_nil, if_true]
      simp [hname, hdb, hnone]
  · intro db databaseName
    unfold hotSpotsAll
    apply List.filterMap_congr
    intro f _
    have he : (db.function_calls.filter (fun fc => fc.callee_id.isSome)).filter
        (fun fc => fc.callee_id == some f.id) =
        db.function_calls.filter (fun fc => fc.callee_id == some f.id) := by
      rw [List.filter_filter]
      apply List.filter_congr
      intro fc _
      rcases h : fc.callee_id with _ | v <;> simp [h]
    rw [he]

/-- Claim C4 amended witness: the name bar is retained from both recognized
reference forms; on the two-unresolved-edge corpus the call site appears in
the caller lookup rows; and dropping unresolved edges leaves the hot-spot
aggregation unchanged. -/
theorem c4_witness :
    deriveCalleeName (some (unresolvedTag ++ "bar" ++ "@" ++ "f.ts:2")) = some "bar" ∧
    deriveCalleeName (some ("bar" ++ "@" ++ "f.ts:2")) = some "bar" ∧
    ((⟨"main", "f.ts", 2, unresolvedResultTag⟩ : CallerResult) ∈
      findCallersAll unresDB ("bar") ("db1")) ∧
    (hotSpotsAll { unresDB with
        function_calls := unresDB.function_calls.filter (fun fc => fc.callee_id.isSome) }
      ("db1") = hotSpotsAll unresDB ("db1")) :=
  ⟨c4_retention_and_visibility_amended.1 ("bar") ("f.ts:2") (by decide) (by decide),
    c4_retention_and_visibility_amended.2.1 ("bar") ("f.ts:2") (by decide) (by decide)
      (by decide),
    c4_retention_and_visibility_amended.2.2.1 unresDB ("db1") ("bar")
      unresEdge1 unresMain (by decide) rfl rfl rfl (by decide) rfl,
    c4_retention_and_visibility_amended.2.2.2 unresDB ("db1")⟩

/- Claim C10: fuzzy search ordering.  The cap and the ordering hold, but the
   tie-break (name ascending) does not favour exact matches: a different
   name with the identical trigram set also has similarity 1 and can sort
   first. -/

/-- The similarity-fraction denominator is positive. -/
theorem simFrac_den_pos (a b : String) : 0 < (simFrac a b).2 := by
  unfold simFrac
  split
  · exact Nat.one_pos
  · next h => exact Nat.pos_of_ne_zero h

/-- Cross multiplication decides the rational comparison of similarities. -/
theorem similarity_lt_iff (a b c d : String) :
    similarity a b < similarity c d ↔
      (simFrac a b).1 * (simFrac c d).2 < (simFrac c d).1 * (simFrac a b).2 := by
  have ha := simFrac_den_pos a b
  have hc := simFrac_den_pos c d
  unfold similarity
  rw [div_lt_div_iff₀ (by exact_mod_cast ha) (by exact_mod_cast hc)]
  exact_mod_cast Iff.rfl

/-- Cross multiplication decides rational equality of similarities. -/
theorem similarity_eq_iff (a b c d : String) :
    similarity a b = similarity c d ↔
      (simFrac a b).1 * (simFrac c d).2 = (simFrac c d).1 * (simFrac a b).2 := by
  have ha := simFrac_den_pos a b
  have hc := simFrac_den_pos c d
  unfold similarity
  rw [div_eq_div_iff (by exact_mod_cast ha.ne') (by exact_mod_cast hc.ne')]
  exact_mod_cast Iff.rfl

/-- The % operator matches exactly when the similarity reaches the
threshold. -/
theorem simMatchB_iff (a b : String) :
    simMatchB a b = true ↔ similarityThreshold ≤ similarity a b := by
  have hb := simFrac_den_pos a b
  unfold simMatchB similarityThreshold similarity
  rw [decide_eq_true_iff]
  rw [div_le_div_iff₀ (by norm_num) (by exact_mod_cast hb)]
  rw [show ((simFrac a b).1 : ℚ) * 10 = 10 * (simFrac a b).1 from by ring]
  exact_mod_cast Iff.rfl

/-- lexLe is total. -/
theorem lexLe_total : ∀ a b : List Char, lexLe a b = true ∨ lexLe b a = true
  | [], _ => Or.inl rfl
  | _ :: _, [] => Or.inr rfl
  | a :: as, b :: bs => by
    rcases lt_trichotomy a b with h | h | h
    · left; simp [lexLe, h]
    · subst h
      rcases lexLe_total as bs with h2 | h2
      · left; simp [lexLe, h2]
      · right; simp [lexLe, h2]
    · right; simp [lexLe, h, not_lt_of_gt h]

/-- lexLe is transitive. -/
theorem lexLe_trans : ∀ a b c : List Char,
    lexLe a b = true → lexLe b c = true → lexLe a c = true
  | [], _, _, _, _ => rfl
  | _ :: _, [], _, h, _ => by simp [lexLe] at h
  | _ :: _, _ :: _, [], _, h => by simp [lexLe] at h
  | a :: as, b :: bs, c :: cs, hab, hbc => by
    simp only [lexLe] at *
    rcases lt_trichotomy a b with h1 | h1 | h1
    · rcases lt_trichotomy b c with h2 | h2 | h2
      · simp [h1.trans h2]
      · subst h2; simp [h1]
      · rw [if_neg (not_lt_of_gt h2), if_pos h2] at hbc
        exact absurd hbc (by simp)
    · subst h1
      rcases lt_trichotomy a c with h2 | h2 | h2
      · simp [h2]
      · subst h2
        rw [if_neg (lt_irrefl a), if_neg (lt_irrefl a)] at hab hbc ⊢
        exact lexLe_trans as bs cs hab hbc
      · rw [if_neg (not_lt_of_gt h2), if_pos h2] at hbc
        exact absurd hbc (by simp)
    · rw [if_neg (not_lt_of_gt h1), if_pos h1] at hab
      exact absurd hab (by simp)

/-- The ORDER BY comparison, characterized through the rational
similarities. -/
theorem funcOrder_iff (pattern0 : String) (a b : FunctionRow) :
    funcOrder pattern0 a b ↔
      (similarity b.name pattern0 < similarity a.name pattern0 ∨
        (similarity a.name pattern0 = similarity b.name pattern0 ∧
          lexLe a.name.toList b.name.toList = true)) := by
  unfold funcOrder funcOrderB
  simp only [Bool.or_eq_true, Bool.and_eq_true, decide_eq_true_eq, beq_iff_eq]
  rw [similarity_lt_iff b.name pattern0 a.name pattern0,
    similarity_eq_iff a.name pattern0 b.name pattern0]

instance (pattern0 : String) : IsTotal FunctionRow (funcOrder pattern0) := by
  constructor
  intro a b
  rw [funcOrder_iff, funcOrder_iff]
  rcases lt_trichotomy (similarity a.name pattern0) (similarity b.name pattern0) with h | h | h
  · right; left; exact h
  · rcases lexLe_total a.name.toList b.name.toList with hn | hn
    · left; right; exact ⟨h, hn⟩
    · right; right; exact ⟨h.symm, hn⟩
  · left; left; exact h

instance (pattern0 : String) : IsTrans FunctionRow (funcOrder pattern0) := by
  constructor
  intro a b c hab hbc
  rw [funcOrder_iff] at hab hbc ⊢
  rcases hab with h1 | ⟨h1, h1n⟩
  · rcases hbc with h2 | ⟨h2, _⟩
    · exact Or.inl (h2.trans h1)
    · exact Or.inl (h2 ▸ h1)
  · rcases hbc with h2 | ⟨h2, h2n⟩
    · exact Or.inl (lt_of_lt_of_eq h2 h1.symm)
    · exact Or.inr ⟨h1.trans h2, lexLe_trans _ _ _ h1n h2n⟩

/-- A nodup list contained in another list is no longer than it. -/
theorem nodup_length_le_of_subset {α : Type} [DecidableEq α] (l l' : List α)
    (h : l.Nodup) (hs : l ⊆ l') : l.length ≤ l'.length := by
  have h1 : l.length = l.toFinset.card := (List.toFinset_card_of_nodup h).symm
  have h2 : l.toFinset ⊆ l'.toFinset := by
    intro a ha
    simp only [List.mem_toFinset] at ha ⊢
    exact hs ha
  calc l.length = l.toFinset.card := h1
  _ ≤ l'.toFinset.card := Finset.card_le_card h2
  _ ≤ l'.length := l'.toFinset_card_le

/-- Trigram sets are duplicate free. -/
theorem trigramsOf_nodup (s : String) : (trigramsOf s).Nodup :=
  List.nodup_dedup _

/-- A string with at least one trigram has similarity one with itself. -/
theorem similarity_self (a : String) (h : trigramsOf a ≠ []) :
    similarity a a = 1 := by
  have hfilter : (trigramsOf a).filter (fun t => (trigramsOf a).contains t) =
      trigramsOf a :=
    List.filter_eq_self.mpr (fun t ht => List.elem_eq_true_of_mem ht)
  have hinter : simInter a a = (trigramsOf a).length := by
    unfold simInter; rw [hfilter]
  have huni : simUnion a a = (trigramsOf a).length := by
    unfold simUnion; rw [hinter]; omega
  have hlen : (trigramsOf a).length ≠ 0 := by
    simpa [List.length_eq_zero] using h
  unfold similarity simFrac
  rw [huni, hinter, if_neg hlen]
  exact div_self (by exact_mod_cast hlen)

/-- Similarity never exceeds one. -/
theorem similarity_le_one (a b : String) : similarity a b ≤ 1 := by
  by_cases h : simUnion a b = 0
  · unfold similarity simFrac
    rw [if_pos h]
    norm_num
  · have hinterA : simInter a b ≤ (trigramsOf a).length :=
      List.length_filter_le _ _
    have hinterB : simInter a b ≤ (trigramsOf b).length := by
      apply nodup_length_le_of_subset
      · exact (trigramsOf_nodup a).filter _
      · intro t ht
        have := (List.mem_filter.mp ht).2
        exact List.mem_of_elem_eq_true this
    have huni : simInter a b ≤ simUnion a b := by
      unfold simUnion
      omega
    unfold similarity simFrac
    rw [if_neg h]
    rw [div_le_one (by exact_mod_cast Nat.pos_of_ne_zero h)]
    exact_mod_cast huni

/-- Similarity reaches one exactly when the shared-trigram count equals the
union count. -/
theorem similarity_eq_one_iff (a b : String) :
    similarity a b = 1 ↔ (simFrac a b).1 = (simFrac a b).2 := by
  have hb := simFrac_den_pos a b
  unfold similarity
  rw [div_eq_one_iff_eq (by exact_mod_cast hb.ne')]
  exact_mod_cast Iff.rfl

/-- Claim C10 counterexample: with functions abab and ababab stored in the
corpus, the fuzzy search for the pattern ababab — whose exact match ababab is
present — ranks abab first: both names have the full trigram set of the
pattern (similarity one), and the tie-break on ascending name puts the
shorter name before the exact match. -/
theorem c10_counterexample :
    fuzzExact ∈ fuzzDB.functions ∧ fuzzExact.database_name = "db1" ∧
    fuzzExact.name = "ababab" ∧
    (findFunctionFast fuzzDB ("db1") ("ababab") 10).map FunctionHit.name =
      ["abab", "ababab"] ∧
    (findFunctionFast fuzzDB ("db1") ("ababab") 10).head?.map FunctionHit.name =
      some "abab" := by
  decide

/-- Claim C10 amended: the fuzzy search returns at most limit rows, ordered
by similarity to the pattern descending with ties broken by name ascending;
and an exact match ranks first provided no other stored name of the corpus
reaches similarity one with the pattern (equivalently, shares its full
trigram set) — without that proviso the name tie-break can rank such a name
ahead of the exact match. -/
theorem c10_fuzzy_search_amended (db : DB) (databaseName pattern0 : String)
    (limit : Nat) :
    (findFunctionFast db databaseName pattern0 limit).length ≤ limit ∧
    List.Pairwise (fun h1 h2 : FunctionHit =>
      similarity h2.name pattern0 < similarity h1.name pattern0 ∨
        (similarity h1.name pattern0 = similarity h2.name pattern0 ∧
          lexLe h1.name.toList h2.name.toList = true))
      (findFunctionFast db databaseName pattern0 limit) ∧
    (∀ f ∈ db.functions, f.database_name = databaseName → f.name = pattern0 →
      1 ≤ limit → trigramsOf pattern0 ≠ [] →
      (∀ g ∈ db.functions, g.database_name = databaseName →
        similarity g.name pattern0 = 1 → g.name = pattern0) →
      (findFunctionFast db databaseName pattern0 limit).head?.map FunctionHit.name =
        some pattern0) := by
  refine ⟨?_, ?_, ?_⟩
  · unfold findFunctionFast
    rw [List.length_map, List.length_take]
    exact min_le_left _ _
  · unfold findFunctionFast
    have hp := List.Pairwise.sublist (List.take_sublist limit _)
      (List.sorted_insertionSort (funcOrder pattern0)
        (findFunctionMatches db databaseName pattern0))
    exact List.Pairwise.map toHit
      (fun a b hab => (funcOrder_iff pattern0 a b).mp hab) hp
  · intro f hf hdb hnamef hlim htri huniq
    have hfM : f ∈ findFunctionMatches db databaseName pattern0 := by
      unfold findFunctionMatches
      apply List.mem_filter.mpr
      refine ⟨hf, ?_⟩
      rw [Bool.and_eq_true]
      constructor
      · simp [hdb]
      · rw [simMatchB_iff, hnamef, similarity_self pattern0 htri]
        unfold similarityThreshold
        norm_num
    have hperm := List.perm_insertionSort (funcOrder pattern0)
      (findFunctionMatches db databaseName pattern0)
    have hfS : f ∈ List.insertionSort (funcOrder pattern0)
        (findFunctionMatches db databaseName pattern0) := hperm.mem_iff.mpr hfM
    have hsorted := List.sorted_insertionSort (funcOrder pattern0)
      (findFunctionMatches db databaseName pattern0)
    rcases hs : List.insertionSort (funcOrder pattern0)
        (findFunctionMatches db databaseName pattern0) with _ | ⟨h0, S'⟩
    · rw [hs] at hfS
      cases hfS
    · have hh0M : h0 ∈ findFunctionMatches db databaseName pattern0 :=
        hperm.mem_iff.mp (by rw [hs]; exact List.mem_cons_self h0 S')
      have hh0f := List.mem_filter.mp hh0M
      have hh0db : h0.database_name = databaseName := by
        have h2 := hh0f.2
        rw [Bool.and_eq_true] at h2
        simpa using h2.1
      have hh0name : h0.name = pattern0 := by
        rw [hs] at hfS
        rcases List.mem_cons.mp hfS with he | hmem
        · rw [← he]; exact hnamef
        · have hord : funcOrder pattern0 h0 f := by
            rw [hs] at hsorted
            exact (List.pairwise_cons.mp hsorted).1 f hmem
          rw [funcOrder_iff] at hord
          have hsf : similarity f.name pattern0 = 1 := by
            rw [hnamef]; exact similarity_self pattern0 htri
          rcases hord with hlt | ⟨heq, _⟩
          · rw [hsf] at hlt
            exact absurd hlt (not_lt.mpr (similarity_le_one _ _))
          · exact huniq h0 hh0f.1 hh0db (by rw [heq, hsf])
      unfold findFunctionFast
      rw [hs]
      rcases limit with _ | m
      · omega
      · simp [toHit, hh0name]

/-- Claim C10 amended witness: searching the unresolved-edge corpus for the
pattern bar — whose trigram set no other stored name attains — puts the
exact match first, within the cap. -/
theorem c10_witness :
    ((findFunctionFast unresDB ("db1") ("bar") 10).length ≤ 10) ∧
    ((findFunctionFast unresDB ("db1") ("bar") 10).head?.map FunctionHit.name =
      some "bar") :=
  ⟨(c10_fuzzy_search_amended unresDB ("db1") ("bar") 10).1,
    (c10_fuzzy_search_amended unresDB ("db1") ("bar") 10).2.2 unresBar
      (by decide) rfl rfl (by decide) (by decide)
      (fun g hg _ hsim => by
        rcases List.mem_cons.mp hg with he | hg2
        · exfalso
          rw [he, similarity_eq_one_iff] at hsim
          revert hsim
          decide
        · rcases List.mem_cons.mp hg2 with he2 | hg3
          · rw [he2]; rfl
          · cases hg3)⟩

/- Claim C2: shortest call chain within the depth bound. -/

/-- Membership in one expansion step of the CTE, characterized. -/
theorem mem_chainExpand_iff (db : DB) (databaseName : String) (maxDepth : Nat)
    (cc : ChainRow) (r : ChainRow) :
    r ∈ chainExpand db databaseName maxDepth cc ↔
      (cc.depth < maxDepth ∧ ∃ fc ∈ db.function_calls,
        fc.caller_id = some cc.id ∧
        ∃ callee ∈ db.functions,
          (fc.callee_id = some callee.id ∨ fc.callee_name = some callee.name) ∧
          callee.database_name = databaseName ∧
          callee.name ∉ cc.path ∧
          r = ⟨callee.id, callee.name, callee.file, cc.path ++ [callee.name],
            cc.depth + 1⟩) := by
  unfold chainExpand
  by_cases hd : cc.depth < maxDepth
  · rw [if_pos hd]
    simp only [hd, true_and, List.mem_flatMap]
    constructor
    · rintro ⟨fc, hfc, hr⟩
      by_cases hcid : (fc.caller_id == some cc.id) = true
      · rw [if_pos hcid] at hr
        rcases List.mem_map.mp hr with ⟨callee, hcm, hre⟩
        rcases List.mem_filter.mp hcm with ⟨hcmem, hcond⟩
        simp only [Bool.and_eq_true, Bool.or_eq_true, beq_iff_eq,
          Bool.not_eq_true'] at hcond
        refine ⟨fc, hfc, by simpa using hcid, callee, hcmem,
          hcond.1.1, hcond.1.2, ?_, hre.symm⟩
        intro hmem
        rw [← Bool.not_eq_true] at hcond
        exact absurd (by simpa using hmem) (by simpa using hcond.2)
      · rw [if_neg hcid] at hr
        cases hr
    · rintro ⟨fc, hfc, hcid, callee, hcm, hjoin, hdb2, hnotin, hre⟩
      refine ⟨fc, hfc, ?_⟩
      rw [if_pos (by simpa using hcid)]
      apply List.mem_map.mpr
      refine ⟨callee, List.mem_filter.mpr ⟨hcm, ?_⟩, hre.symm⟩
      rcases hjoin with h | h <;> simp [h, hdb2, hnotin]
  · rw [if_neg hd]
    simp [hd]

/-- The depth-n stratum of the CTE holds exactly the rows of the valid
search chains of length n+1, carrying the last node's columns, the name
path, and depth n. -/
theorem mem_chainLevels_iff (db : DB) (fromName databaseName : String)
    (maxDepth : Nat) :
    ∀ n, n ≤ maxDepth → ∀ r : ChainRow,
      (r ∈ chainLevels db fromName databaseName maxDepth n ↔
        ∃ fs : List FunctionRow, ∃ fl : FunctionRow,
          ChainCore db fromName databaseName fs ∧ fs.length = n + 1 ∧
          fs.getLast? = some fl ∧
          r = ⟨fl.id, fl.name, fl.file, fs.map FunctionRow.name, n⟩) := by
  intro n
  induction n with
  | zero =>
    intro _ r
    unfold chainLevels chainBase
    rw [List.mem_map]
    constructor
    · rintro ⟨f, hfm, hre⟩
      rcases List.mem_filter.mp hfm with ⟨hmem, hcond⟩
      rw [Bool.and_eq_true] at hcond
      exact ⟨[f], f, ⟨⟨f, rfl, hmem, by simpa using hcond.1, by simpa using hcond.2⟩,
        List.chain'_singleton f, by simp⟩, rfl, rfl, hre.symm⟩
    · rintro ⟨fs, fl, ⟨⟨f0, hhead, hfm, hfname, hfdb⟩, _, _⟩, hlen, hlast, hre⟩
      rcases List.length_eq_one.mp hlen with ⟨a, ha⟩
      subst ha
      have e0 : a = f0 := by simpa using hhead
      have e1 : a = fl := by simpa using hlast
      subst e0
      refine ⟨a, List.mem_filter.mpr ⟨hfm, by simp [hfname, hfdb]⟩, ?_⟩
      rw [hre, ← e1]
      simp
  | succ n ih =>
    intro hle r
    have hn : n ≤ maxDepth := Nat.le_of_succ_le hle
    unfold chainLevels
    rw [List.mem_flatMap]
    constructor
    · rintro ⟨cc, hcc, hr⟩
      rcases (ih hn cc).mp hcc with ⟨fs, fl, hcore, hlen, hlast, hccform⟩
      rcases (mem_chainExpand_iff db databaseName maxDepth cc r).mp hr with
        ⟨_, fc, hfc, hcid, callee, hcm, hjoin, hdb2, hnotin, hrform⟩
      subst hccform
      refine ⟨fs ++ [callee], callee, ⟨?_, ?_, ?_⟩, ?_, ?_, ?_⟩
      · rcases hcore.1 with ⟨f0, hh, h1, h2, h3⟩
        refine ⟨f0, ?_, h1, h2, h3⟩
        rw [List.head?_append, hh]
        rfl
      · rw [List.chain'_append]
        refine ⟨hcore.2.1, List.chain'_singleton _, ?_⟩
        intro x hx y hy
        have hx2 : x = fl := by
          rw [hlast] at hx
          have := hx
          simp only [Option.mem_some_iff] at this
          exact this.symm
        have hy2 : y = callee := by
          have := hy
          simp only [List.head?_cons, Option.mem_some_iff] at this
          exact this.symm
        subst hx2
        subst hy2
        exact ⟨hcm, hdb2, fc, hfc, hcid, hjoin⟩
      · rw [List.map_append, List.nodup_append]
        exact ⟨hcore.2.2, by simp, by
          simp only [List.map_cons, List.map_nil, List.disjoint_singleton]
          exact hnotin⟩
      · simp [hlen]
      · exact List.getLast?_concat fs
      · rw [hrform]
        simp
    · rintro ⟨fs', fl', hcore', hlen', hlast', hrform'⟩
      have hne : fs' ≠ [] := by
        intro h
        rw [h] at hlen'
        cases hlen'
      have hsplit : fs'.dropLast ++ [fs'.getLast hne] = fs' :=
        List.dropLast_append_getLast hne
      have hlastval : fs'.getLast hne = fl' := by
        have h := List.getLast?_eq_getLast fs' hne
        rw [h] at hlast'
        exact Option.some_injective _ hlast'
      have hfslen : fs'.dropLast.length = n + 1 := by
        rw [List.length_dropLast, hlen']
        omega
      have hfsne : fs'.dropLast ≠ [] := by
        intro h
        rw [h] at hfslen
        cases hfslen
      have hch := hcore'.2.1
      rw [← hsplit, List.chain'_append] at hch
      obtain ⟨hchfs, _, hstep⟩ := hch
      have hstepfl : chainStep db databaseName (fs'.dropLast.getLast hfsne) fl' := by
        apply hstep
        · rw [List.getLast?_eq_getLast fs'.dropLast hfsne]
          simp
        · rw [hlastval]
          simp
      have hnd := hcore'.2.2
      rw [← hsplit, List.map_append, List.nodup_append] at hnd
      obtain ⟨hndfs, _, hdisj⟩ := hnd
      have hnotin : fl'.name ∉ fs'.dropLast.map FunctionRow.name := by
        rw [hlastval] at hdisj
        simp only [List.map_cons, List.map_nil, List.disjoint_singleton] at hdisj
        exact hdisj
      have hheadfs : fs'.dropLast.head? = fs'.head? := by
        conv_rhs => rw [← hsplit]
        rw [List.head?_append]
        rcases hq : fs'.dropLast with _ | ⟨x, xs⟩
        · exact absurd hq hfsne
        · rfl
      rcases hcore'.1 with ⟨f0, hh0, hm0, hn0, hd0⟩
      rcases hstepfl with ⟨hflmem, hfldb, fc, hfc, hcid, hjoin⟩
      refine ⟨⟨(fs'.dropLast.getLast hfsne).id, (fs'.dropLast.getLast hfsne).name,
          (fs'.dropLast.getLast hfsne).file, fs'.dropLast.map FunctionRow.name, n⟩,
        (ih hn _).mpr ⟨fs'.dropLast, fs'.dropLast.getLast hfsne,
          ⟨⟨f0, by rw [hheadfs]; exact hh0, hm0, hn0, hd0⟩, hchfs, hndfs⟩,
          hfslen, List.getLast?_eq_getLast _ hfsne, rfl⟩, ?_⟩
      apply (mem_chainExpand_iff db databaseName maxDepth _ r).mpr
      refine ⟨Nat.lt_of_lt_of_le (Nat.lt_succ_self n) hle, fc, hfc, hcid,
        fl', hflmem, hjoin, hfldb, hnotin, ?_⟩
      rw [hrform']
      have hmapeq : fs'.map FunctionRow.name =
          fs'.dropLast.map FunctionRow.name ++ [fl'.name] := by
        conv_lhs => rw [← hsplit]
        rw [List.map_append, hlastval]
        rfl
      rw [hmapeq]

/-- Membership in the whole CTE row set. -/
theorem mem_chainRows_iff (db : DB) (fromName databaseName : String)
    (maxDepth : Nat) (r : ChainRow) :
    r ∈ chainRows db fromName databaseName maxDepth ↔
      ∃ n, n ≤ maxDepth ∧ r ∈ chainLevels db fromName databaseName maxDepth n := by
  unfold chainRows
  rw [List.mem_flatMap]
  constructor
  · rintro ⟨n, hn, hr⟩
    exact ⟨n, Nat.lt_succ_iff.mp (List.mem_range.mp hn), hr⟩
  · rintro ⟨n, hn, hr⟩
    exact ⟨n, List.mem_range.mpr (Nat.lt_succ_iff.mpr hn), hr⟩

/-- Claim C2: find_call_chain returns a path of minimum depth among all
cycle-free (per the CTE, no repeated names) chains from a function named
from_name to one named to_name whose depth stays within max_depth (start at
depth 0, one per traversed edge); when no such chain exists within the
bound it reports not-found even if longer chains exist beyond it.  On the
sample corpus with edges A to B and B to C, max_depth 5 finds the path
A, B, C at depth 2 and max_depth 1 reports not-found. -/
theorem c2_find_call_chain_shortest (db : DB)
    (fromName toName databaseName : String) (maxDepth : Nat) :
    (∀ p d, findCallChain db fromName toName databaseName maxDepth = some (p, d) →
      ∃ fs fl, ValidSearchChain db fromName databaseName maxDepth fs ∧
        p = fs.map FunctionRow.name ∧ fs.length = d + 1 ∧
        fs.getLast? = some fl ∧ fl.name = toName ∧
        (∀ gs gl, ValidSearchChain db fromName databaseName maxDepth gs →
          gs.getLast? = some gl → gl.name = toName → d + 1 ≤ gs.length)) ∧
    (findCallChain db fromName toName databaseName maxDepth = none →
      ∀ gs gl, ValidSearchChain db fromName databaseName maxDepth gs →
        gs.getLast? = some gl → gl.name ≠ toName) ∧
    findCallChain sampleDB ("A") ("C") ("sample") 5 = some (["A", "B", "C"], 2) ∧
    findCallChain sampleDB ("A") ("C") ("sample") 1 = none := by
  have key : ∀ gs gl, ValidSearchChain db fromName databaseName maxDepth gs →
      gs.getLast? = some gl → gl.name = toName →
      ∃ rg ∈ (chainRows db fromName databaseName maxDepth).filter
        (fun r => r.name == toName), rg.depth + 1 = gs.length := by
    intro gs gl hval hlast hname
    have hne : gs ≠ [] := by
      intro h
      rw [h] at hlast
      cases hlast
    have hpos : 0 < gs.length := List.length_pos.mpr hne
    have hlen : gs.length = (gs.length - 1) + 1 := by omega
    have hnle : gs.length - 1 ≤ maxDepth := by
      have := hval.2
      omega
    have hr : (⟨gl.id, gl.name, gl.file, gs.map FunctionRow.name,
        gs.length - 1⟩ : ChainRow) ∈
        chainLevels db fromName databaseName maxDepth (gs.length - 1) :=
      (mem_chainLevels_iff db fromName databaseName maxDepth (gs.length - 1)
        hnle _).mpr ⟨gs, gl, hval.1, hlen.symm ▸ rfl, hlast, rfl⟩
    refine ⟨_, List.mem_filter.mpr
      ⟨(mem_chainRows_iff db fromName databaseName maxDepth _).mpr
        ⟨gs.length - 1, hnle, hr⟩, by simp [hname]⟩, ?_⟩
    show gs.length - 1 + 1 = gs.length
    omega
  refine ⟨?_, ?_, by decide, by decide⟩
  · intro p d h
    rcases hm : ((chainRows db fromName databaseName maxDepth).filter
        (fun r => r.name == toName)).argmin ChainRow.depth with _ | r
    · simp only [findCallChain, hm] at h
      exact Option.noConfusion h
    · simp only [findCallChain, hm] at h
      obtain ⟨hp, hd⟩ := Prod.mk.injEq .. ▸ Option.some_injective _ h
      have hrmem : r ∈ (chainRows db fromName databaseName maxDepth).filter
          (fun r => r.name == toName) :=
        List.argmin_mem (by rw [hm]; rfl)
      rcases List.mem_filter.mp hrmem with ⟨hrrows, hrname⟩
      rcases (mem_chainRows_iff db fromName databaseName maxDepth r).mp hrrows with
        ⟨n, hnle, hrlevel⟩
      rcases (mem_chainLevels_iff db fromName databaseName maxDepth n hnle r).mp
        hrlevel with ⟨fs, fl, hcore, hlen, hlast, hrform⟩
      subst hrform
      refine ⟨fs, fl, ⟨hcore, by omega⟩, ?_, ?_, hlast, ?_, ?_⟩
      · rw [← hp]
      · rw [← hd]
        exact hlen
      · simpa using hrname
      · intro gs gl hval hlast2 hname2
        rcases key gs gl hval hlast2 hname2 with ⟨rg, hrgmem, hrglen⟩
        have hself : (⟨fl.id, fl.name, fl.file, fs.map FunctionRow.name, n⟩ : ChainRow) ∈
            ((chainRows db fromName databaseName maxDepth).filter
              (fun r => r.name == toName)).argmin ChainRow.depth := by
          rw [hm]; rfl
        have hle := List.le_of_mem_argmin hrgmem hself
        have hle2 : n ≤ rg.depth := hle
        have hd2 : n = d := hd
        omega
  · intro h gs gl hval hlast hname
    rcases hm : ((chainRows db fromName databaseName maxDepth).filter
        (fun r => r.name == toName)).argmin ChainRow.depth with _ | r
    · rcases key gs gl hval hlast hname with ⟨rg, hrgmem, _⟩
      rw [List.argmin_eq_none.mp hm] at hrgmem
      cases hrgmem
    · simp only [findCallChain, hm] at h
      exact Option.noConfusion h

/-- Claim C2 witness: instantiating the shortest-chain property on the
sample corpus yields the concrete chain A, B, C of depth 2 together with
its minimality. -/
theorem c2_witness :
    ∃ fs fl, ValidSearchChain sampleDB ("A") ("sample") 5 fs ∧
      (["A", "B", "C"] : List String) = fs.map FunctionRow.name ∧
      fs.length = 2 + 1 ∧ fs.getLast? = some fl ∧ fl.name = "C" ∧
      (∀ gs gl, ValidSearchChain sampleDB ("A") ("sample") 5 gs →
        gs.getLast? = some gl → gl.name = "C" → 2 + 1 ≤ gs.length) :=
  (c2_find_call_chain_shortest sampleDB ("A") ("C") ("sample") 5).1
    (["A", "B", "C"]) 2 (by rfl)

end CodeQLGraph
